import Mathlib

/-!
Verification of the promise-delivery date engine.

This file shallowly embeds the delivery-estimate core that is implemented
twice in the repository: once server-side in
`cartridges/int_promise_delivery/cartridge/scripts/helpers/promiseDeliveryHelper.js`
(static 2024-2025 holiday list) and once client-side in
`overrides/app/pages/checkout/partials/shipping-method-options.jsx`
(dynamic per-year holiday computation with a cache), plus the storefront
controller endpoints `GetEstimate` / `GetAllEstimates`.

JS numbers are modelled as `Int`/`Nat` (the code only ever produces integral
values in the exercised range), JS strings as `String`, JS `Date` values as a
normalized calendar-date record, and the `try`/`catch` in the controller as an
`Except` parameter.
-/

/-! ## JS string and number primitives -/

/-- Model of the JS whitespace skipped by `parseInt` (ASCII part). -/
def jsWhitespace (c : Char) : Bool :=
  c = ' ' || c = '\t' || c = '\n' || c = '\r'

/-- Numeric value of a decimal digit character. -/
def digitVal (c : Char) : Nat := c.toNat - 48

/-- Value of a list of decimal digit characters, most significant first. -/
def digitsToNat (l : List Char) : Nat :=
  l.foldl (fun a c => 10 * a + digitVal c) 0

/-- Model of JS `parseInt(s, 10)`: skip leading whitespace, optional sign,
then the longest prefix of decimal digits; `none` models `NaN`.
(For inputs beyond 2^53 JS rounds the float; both sides of every claim only
depend on whether the value is in `[0, 99999]`, where the model is exact.) -/
def parseIntJS (s : String) : Option Int :=
  let l := s.data.dropWhile jsWhitespace
  let signed : Int × List Char :=
    match l with
    | '-' :: t => (-1, t)
    | '+' :: t => (1, t)
    | t => (1, t)
  let ds := signed.2.takeWhile Char.isDigit
  if ds.isEmpty then none else some (signed.1 * (digitsToNat ds : Int))

/-- Embedding of `getTransitDays` (identical in the server helper and the
client module): parse the ZIP, default 5 on `NaN`, otherwise classify by
range with a trailing default of 5. -/
def getTransitDays (destinationZip : String) : Nat :=
  match parseIntJS destinationZip with
  | none => 5
  | some zipNum =>
    if 0 ≤ zipNum ∧ zipNum ≤ 19999 then 1
    else if 20000 ≤ zipNum ∧ zipNum ≤ 39999 then 2
    else if 40000 ≤ zipNum ∧ zipNum ≤ 59999 then 3
    else if 60000 ≤ zipNum ∧ zipNum ≤ 79999 then 4
    else if 80000 ≤ zipNum ∧ zipNum ≤ 99999 then 5
    else 5

/-- Embedding of `getTransitDaysForShippingMethod` (identical in both
surfaces). `none` models a `null`/`undefined` method id reaching the
`default` branch of the `switch`. -/
def getTransitDaysForShippingMethod (shippingMethodId : Option String)
    (destinationZip : String) : Nat :=
  let baseTransitDays := getTransitDays destinationZip
  if shippingMethodId = some "overnight" ∨ shippingMethodId = some "express-overnight" then 1
  else if shippingMethodId = some "express" ∨ shippingMethodId = some "2-day" then
    min 2 baseTransitDays
  else baseTransitDays

/-- Model of a JS value passed where a ZIP string is expected; the source
checks `!zipCode || typeof zipCode !== 'string'`. -/
inductive JsValue where
  | jsNull
  | jsUndefined
  | jsNumber (n : Int)
  | jsString (s : String)
deriving DecidableEq

/-- Embedding of `zipCode.replace(/\D/g, '')`. -/
def stripNonDigits (s : String) : String :=
  ⟨s.data.filter Char.isDigit⟩

/-- Embedding of `isValidZipCode` on an actual string argument: an empty
string is falsy and rejected; otherwise strip non-digits and require
length 5. -/
def isValidZipCodeStr (zipCode : String) : Bool :=
  if zipCode = "" then false
  else (stripNonDigits zipCode).length == 5

/-- Embedding of `isValidZipCode` on an arbitrary JS value (identical in both
surfaces): `null`, `undefined` and non-strings are rejected by the
`!zipCode || typeof zipCode !== 'string'` guard. -/
def isValidZipCode : JsValue → Bool
  | .jsString s => isValidZipCodeStr s
  | _ => false

/-! ## Calendar dates

A JS `Date` at local midnight is modelled as a normalized civil date.
`month` is 1-based here (the JS `getMonth()` accessor is `month - 1`). -/

structure JsDate where
  year : Int
  month : Nat
  day : Nat
deriving DecidableEq, Repr

/-- Gregorian leap-year rule (what JS `Date` month arithmetic implements). -/
def isLeapYear (y : Int) : Bool :=
  (y % 4 = 0 && !(y % 100 = 0)) || y % 400 = 0

/-- Number of days of month `m` (1-based) in year `y`. -/
def daysInMonth (y : Int) (m : Nat) : Nat :=
  if m = 2 then (if isLeapYear y then 29 else 28)
  else if m = 4 ∨ m = 6 ∨ m = 9 ∨ m = 11 then 30
  else 31

/-- A normalized civil date: month in `[1,12]`, day in `[1, daysInMonth]`. -/
def JsDate.Valid (d : JsDate) : Prop :=
  1 ≤ d.month ∧ d.month ≤ 12 ∧ 1 ≤ d.day ∧ d.day ≤ daysInMonth d.year d.month

instance (d : JsDate) : Decidable d.Valid := by
  unfold JsDate.Valid; infer_instance

/-- Advance a normalized date by one calendar day (JS `setDate(getDate()+1)`). -/
def nextDay (d : JsDate) : JsDate :=
  if d.day < daysInMonth d.year d.month then ⟨d.year, d.month, d.day + 1⟩
  else if d.month < 12 then ⟨d.year, d.month + 1, 1⟩
  else ⟨d.year + 1, 1, 1⟩

/-- Move a normalized date back by one calendar day. -/
def prevDay (d : JsDate) : JsDate :=
  if 1 < d.day then ⟨d.year, d.month, d.day - 1⟩
  else if 1 < d.month then ⟨d.year, d.month - 1, daysInMonth d.year (d.month - 1)⟩
  else ⟨d.year - 1, 12, 31⟩

/-- Shift a normalized date by a (possibly negative) number of days. -/
def addDaysInt (d : JsDate) (k : Int) : JsDate :=
  if 0 ≤ k then nextDay^[k.toNat] d else prevDay^[(-k).toNat] d

/-- Model of the JS constructor `new Date(y, m, dd)` with 0-based month `m`
and arbitrary integer day `dd`: months are normalized into the year and the
day offset is applied from the first of the resulting month, exactly the
ECMAScript `MakeDay` normalization. -/
def mkDateJS (y m dd : Int) : JsDate :=
  let ym := 12 * y + m
  addDaysInt ⟨ym / 12, (ym % 12).toNat + 1, 1⟩ (dd - 1)

/-- Day number of a civil date (days since 0000-03-01, era-free Hinnant
formula); used only to define the weekday and to reason about `nextDay`. -/
def dayNumber (d : JsDate) : Int :=
  365 * (if d.month ≤ 2 then d.year - 1 else d.year)
    + (if d.month ≤ 2 then d.year - 1 else d.year) / 4
    - (if d.month ≤ 2 then d.year - 1 else d.year) / 100
    + (if d.month ≤ 2 then d.year - 1 else d.year) / 400
    + (153 * (if d.month ≤ 2 then (d.month : Int) + 9 else (d.month : Int) - 3) + 2) / 5
    + (d.day : Int) - 1

/-- JS `Date.prototype.getDay()`: 0 = Sunday .. 6 = Saturday. -/
def getDay (d : JsDate) : Nat := ((dayNumber d + 3) % 7).toNat

/-! ## Decimal formatting (JS template literals and `padStart`) -/

/-- Decimal digit to character. -/
def digitChar : Nat → Char
  | 0 => '0' | 1 => '1' | 2 => '2' | 3 => '3' | 4 => '4'
  | 5 => '5' | 6 => '6' | 7 => '7' | 8 => '8' | _ => '9'

/-- Least-significant-first decimal digits of `n`, with fuel (the fuel `n`
itself is always sufficient). -/
def natToCharsAux : Nat → Nat → List Char
  | 0, _ => []
  | _ + 1, 0 => []
  | f + 1, n + 1 => digitChar ((n + 1) % 10) :: natToCharsAux f ((n + 1) / 10)

/-- Decimal representation of a natural number (JS `String(n)`). -/
def natToChars (n : Nat) : List Char :=
  if n = 0 then ['0'] else (natToCharsAux n n).reverse

/-- Decimal representation of an integer (JS `String(i)`). -/
def intToChars (y : Int) : List Char :=
  if y < 0 then '-' :: natToChars (-y).toNat else natToChars y.toNat

/-- JS `String(n).padStart(2, '0')` for the month/day fields. -/
def pad2Chars (n : Nat) : List Char :=
  if n < 10 then '0' :: natToChars n else natToChars n

/-- Embedding of `formatDateString` (and `formatDateStringInternal`):
the canonical `YYYY-MM-DD` form. -/
def formatDateString (d : JsDate) : String :=
  ⟨intToChars d.year ++ ('-' :: pad2Chars d.month) ++ ('-' :: pad2Chars d.day)⟩

/-! ## Dynamic holiday calculation (client module) -/

/-- Embedding of `getNthWeekdayOfMonth` (0-based `month`). -/
def getNthWeekdayOfMonth (year month dayOfWeek occurrence : Int) : JsDate :=
  let firstDay := mkDateJS year month 1
  let firstDayOfWeek : Int := getDay firstDay
  let daysUntilFirst0 := dayOfWeek - firstDayOfWeek
  let daysUntilFirst := if daysUntilFirst0 < 0 then daysUntilFirst0 + 7 else daysUntilFirst0
  mkDateJS year month (1 + daysUntilFirst + (occurrence - 1) * 7)

/-- Embedding of `getLastWeekdayOfMonth` (0-based `month`). -/
def getLastWeekdayOfMonth (year month dayOfWeek : Int) : JsDate :=
  let lastDay := mkDateJS year (month + 1) 0
  let lastDayOfWeek : Int := getDay lastDay
  let daysToSubtract0 := lastDayOfWeek - dayOfWeek
  let daysToSubtract := if daysToSubtract0 < 0 then daysToSubtract0 + 7 else daysToSubtract0
  mkDateJS year (month + 1) (-daysToSubtract)

/-- Embedding of `getObservedDate`: Saturday observes on the preceding
Friday, Sunday on the following Monday. -/
def getObservedDate (date : JsDate) : JsDate :=
  let dayOfWeek := getDay date
  if dayOfWeek = 6 then mkDateJS date.year ((date.month : Int) - 1) ((date.day : Int) - 1)
  else if dayOfWeek = 0 then mkDateJS date.year ((date.month : Int) - 1) ((date.day : Int) + 1)
  else date

/-- Embedding of `calculateHolidaysForYear`: the ten US federal holidays, in
the push order of the source. -/
def calculateHolidaysForYear (year : Int) : List String :=
  [ formatDateString (getObservedDate (mkDateJS year 0 1)),
    formatDateString (getNthWeekdayOfMonth year 0 1 3),
    formatDateString (getNthWeekdayOfMonth year 1 1 3),
    formatDateString (getLastWeekdayOfMonth year 4 1),
    formatDateString (getObservedDate (mkDateJS year 6 4)),
    formatDateString (getNthWeekdayOfMonth year 8 1 1),
    formatDateString (getNthWeekdayOfMonth year 9 1 2),
    formatDateString (getObservedDate (mkDateJS year 10 11)),
    formatDateString (getNthWeekdayOfMonth year 10 4 4),
    formatDateString (getObservedDate (mkDateJS year 11 25)) ]

/-- The year-keyed holiday cache (`const holidayCache = new Map()`). -/
abbrev HolidayCache := List (Int × List String)

/-- Lookup in the modelled cache (`holidayCache.get(year)` after `has`). -/
def cacheLookup (c : HolidayCache) (y : Int) : Option (List String) :=
  match c.find? (fun p => p.1 == y) with
  | some p => some p.2
  | none => none

/-- Embedding of `getHolidaysForYear`: return the cached list if present,
otherwise compute it, store it, and return it. The updated cache is returned
explicitly (it is a module-global `Map` in the source). -/
def getHolidaysForYear (c : HolidayCache) (year : Int) :
    List String × HolidayCache :=
  match cacheLookup c year with
  | some l => (l, c)
  | none =>
    (calculateHolidaysForYear year, (year, calculateHolidaysForYear year) :: c)

/-- Embedding of `isHolidayDynamic`. The source reads through the cache;
since cache entries always equal `calculateHolidaysForYear` of their key
(proved below), the cache is transparent here. -/
def isHolidayDynamic (d : JsDate) : Bool :=
  (calculateHolidaysForYear d.year).contains (formatDateString d)

/-! ## Static holiday list (server helper) -/

/-- Embedding of the server-side `HOLIDAYS` constant (2024-2025 only). -/
def HOLIDAYS : List String :=
  [ "2024-01-01", "2024-01-15", "2024-02-19", "2024-05-27", "2024-07-04",
    "2024-09-02", "2024-10-14", "2024-11-11", "2024-11-28", "2024-12-25",
    "2025-01-01", "2025-01-20", "2025-02-17", "2025-05-26", "2025-07-04",
    "2025-09-01", "2025-10-13", "2025-11-11", "2025-11-27", "2025-12-25" ]

/-- Embedding of the server-side `isHoliday` (static list membership). -/
def isHolidayStatic (d : JsDate) : Bool :=
  HOLIDAYS.contains (formatDateString d)

/-! ## Business days and the advancement loops

Both implementations share the loop structure and differ only in the holiday
predicate, so the loops are defined generically and instantiated twice. -/

/-- Business-day test: not Saturday/Sunday and not a holiday (per `hol`). -/
def isBusinessDayGen (hol : JsDate → Bool) (d : JsDate) : Bool :=
  let dayOfWeek := getDay d
  if dayOfWeek = 0 || dayOfWeek = 6 then false
  else ! hol d

/-- Server-side `isBusinessDay` (static holiday list). -/
def isBusinessDayS : JsDate → Bool := isBusinessDayGen isHolidayStatic

/-- Client-side `isBusinessDay` (dynamic holiday calculation). -/
def isBusinessDayD : JsDate → Bool := isBusinessDayGen isHolidayDynamic

/-- The `while (!isBusinessDay(nextDay))` search, with explicit fuel.
The fuel of 366 used below never runs out on normalized dates (proved). -/
def nextBizAux (p : JsDate → Bool) : Nat → JsDate → JsDate
  | 0, cur => cur
  | fuel + 1, cur => if p cur then cur else nextBizAux p fuel (nextDay cur)

/-- Embedding of `getNextBusinessDay`: advance one day, then search. -/
def getNextBusinessDayGen (p : JsDate → Bool) (d : JsDate) : JsDate :=
  nextBizAux p 366 (nextDay d)

/-- The `while (daysAdded < businessDays)` loop of `addBusinessDays`,
with explicit fuel; `need` counts the business days still to add. -/
def addBizAux (p : JsDate → Bool) : Nat → JsDate → Nat → JsDate
  | 0, cur, _ => cur
  | fuel + 1, cur, need =>
    if need = 0 then cur
    else
      let c := nextDay cur
      addBizAux p fuel c (if p c then need - 1 else need)

/-- Embedding of `addBusinessDays` (fuel 366 per requested business day,
never exhausted on normalized dates, proved below). -/
def addBusinessDaysGen (p : JsDate → Bool) (d : JsDate) (n : Nat) : JsDate :=
  addBizAux p (366 * n) d n

/-- Server-side `getNextBusinessDay`. -/
def getNextBusinessDayS : JsDate → JsDate := getNextBusinessDayGen isBusinessDayS

/-- Client-side `getNextBusinessDay`. -/
def getNextBusinessDayD : JsDate → JsDate := getNextBusinessDayGen isBusinessDayD

/-- Server-side `addBusinessDays`. -/
def addBusinessDaysS : JsDate → Nat → JsDate := addBusinessDaysGen isBusinessDayS

/-- Client-side `addBusinessDays`. -/
def addBusinessDaysD : JsDate → Nat → JsDate := addBusinessDaysGen isBusinessDayD

/-! ## Wall-clock instants and ship dates

A fixed wall-clock instant is modelled by the caller-local midnight date
`today` together with the hour-of-day readings that the implementations
consult: the caller-local hour, the UTC hour, and the civil hour in the
origin zone America/New_York. Validity ties the New York hour to UTC by the
actual offset, which is -5 (EST) or -4 (EDT, during daylight saving). -/

structure Instant where
  today : JsDate
  localHour : Nat
  utcHour : Nat
  nyHour : Nat
deriving DecidableEq, Repr

/-- A physically possible instant (hours in range, New York offset -5 or -4). -/
def Instant.Valid (i : Instant) : Prop :=
  i.today.Valid ∧ i.localHour < 24 ∧ i.utcHour < 24 ∧ i.nyHour < 24 ∧
  (i.nyHour = (i.utcHour + 19) % 24 ∨ i.nyHour = (i.utcHour + 20) % 24)

instance (i : Instant) : Decidable i.Valid := by
  unfold Instant.Valid; infer_instance

/-- Embedding of the server helper `getShipDate`: the hour is read in the
`America/New_York` calendar, the date is local midnight. -/
def getShipDateS (i : Instant) : JsDate :=
  if i.nyHour < 14 ∧ isBusinessDayS i.today then i.today
  else getNextBusinessDayS i.today

/-- Embedding of the fixed-offset client `getShipDate` (the variant computing
`new Date(utc + 3600000 * EST_OFFSET)` with `EST_OFFSET = -5`): the hour is
the UTC hour shifted by a constant -5, regardless of daylight saving. -/
def getShipDateCFix (i : Instant) : JsDate :=
  let estHour := (i.utcHour + 19) % 24
  if estHour < 14 ∧ isBusinessDayS i.today then i.today
  else getNextBusinessDayS i.today

/-- Embedding of the dynamic-holiday client `getShipDate` (the variant using
`toLocaleString('en-US', {timeZone: 'America/New_York'})` in a `try` block):
`intlHour = some h` models the API returning `h`; `none` models the API
throwing, in which case the `catch` falls back to the caller-local hour. -/
def getShipDateCIntl (intlHour : Option Nat) (i : Instant) : JsDate :=
  let estHour := match intlHour with
    | some h => h
    | none => i.localHour
  if estHour < 14 ∧ isBusinessDayD i.today then i.today
  else getNextBusinessDayD i.today

/-! ## Estimate formatting and the delivery-date pipelines -/

/-- The month-name table of `calculateDeliveryDate`. -/
def MONTHS : List String :=
  [ "January", "February", "March", "April", "May", "June",
    "July", "August", "September", "October", "November", "December" ]

/-- The weekday-name table of `calculateDeliveryDate`. -/
def DAYS : List String :=
  [ "Sunday", "Monday", "Tuesday", "Wednesday", "Thursday", "Friday",
    "Saturday" ]

/-- The English ordinal suffix logic of `calculateDeliveryDate`. -/
def ordinalSuffix (dayOfMonth : Nat) : String :=
  if dayOfMonth = 1 ∨ dayOfMonth = 21 ∨ dayOfMonth = 31 then "st"
  else if dayOfMonth = 2 ∨ dayOfMonth = 22 then "nd"
  else if dayOfMonth = 3 ∨ dayOfMonth = 23 then "rd"
  else "th"

/-- Result record of `calculateDeliveryDate` (both bindings build the same
shape; the server returns `Calendar` objects, the client `Date` objects,
both modelled as `JsDate`). -/
structure DeliveryEstimate where
  deliveryDate : JsDate
  shipDate : JsDate
  transitDays : Nat
  formattedDate : String
  formattedDateFull : String
  displayMessage : String
deriving DecidableEq, Repr

/-- The shared display-formatting tail of `calculateDeliveryDate`. -/
def mkEstimate (shipDate deliveryDate : JsDate) (transitDays : Nat) :
    DeliveryEstimate :=
  let dayOfWeek := DAYS.getD (getDay deliveryDate) ""
  let month := MONTHS.getD (deliveryDate.month - 1) ""
  let dayOfMonth := deliveryDate.day
  let suffix := ordinalSuffix dayOfMonth
  let dayStr := String.mk (natToChars dayOfMonth) ++ suffix
  { deliveryDate := deliveryDate, shipDate := shipDate,
    transitDays := transitDays,
    formattedDate := month ++ " " ++ dayStr,
    formattedDateFull := dayOfWeek ++ ", " ++ month ++ " " ++ dayStr,
    displayMessage := "Get it by " ++ month ++ " " ++ dayStr }

/-- JS truthiness of an optional string (`undefined`, `null`, `""` falsy). -/
def truthyStr : Option String → Bool
  | some s => !(s == "")
  | none => false

/-- Embedding of the server-side `calculateDeliveryDate`. -/
def calculateDeliveryDateS (i : Instant) (destinationZip : String)
    (shippingMethodId : Option String) : DeliveryEstimate :=
  let shipDate := getShipDateS i
  let transitDays :=
    if truthyStr shippingMethodId then
      getTransitDaysForShippingMethod shippingMethodId destinationZip
    else getTransitDays destinationZip
  let deliveryDate := addBusinessDaysS shipDate transitDays
  mkEstimate shipDate deliveryDate transitDays

/-- Embedding of the dynamic-holiday client `calculateDeliveryDate`
(`intlHour` as in `getShipDateCIntl`; `some i.nyHour` is normal operation). -/
def calculateDeliveryDateD (intlHour : Option Nat) (i : Instant)
    (destinationZip : String) (shippingMethodId : Option String) :
    DeliveryEstimate :=
  let shipDate := getShipDateCIntl intlHour i
  let transitDays :=
    if truthyStr shippingMethodId then
      getTransitDaysForShippingMethod shippingMethodId destinationZip
    else getTransitDays destinationZip
  let deliveryDate := addBusinessDaysD shipDate transitDays
  mkEstimate shipDate deliveryDate transitDays

/-- One entry of the `GetAllEstimates` success payload. Prices are exact
decimals in the source (5.99, 12.99, 24.99); they are modelled in cents. -/
structure MethodEstimate where
  shippingMethodId : String
  shippingMethodName : String
  priceCents : Nat
  transitDays : Nat
  deliveryDate : String
  displayMessage : String
deriving DecidableEq, Repr

/-- Embedding of the server-side `getDeliveryEstimatesForAllMethods`:
iterate the fixed method table in order standard, express, overnight. -/
def getDeliveryEstimatesForAllMethodsS (i : Instant)
    (destinationZip : String) : List MethodEstimate :=
  let shippingMethods : List (String × String × Nat) :=
    [ ("standard", "Standard Shipping", 599),
      ("express", "Express Shipping", 1299),
      ("overnight", "Overnight", 2499) ]
  shippingMethods.map fun method =>
    let estimate := calculateDeliveryDateS i destinationZip (some method.1)
    { shippingMethodId := method.1, shippingMethodName := method.2.1,
      priceCents := method.2.2, transitDays := estimate.transitDays,
      deliveryDate := estimate.formattedDate,
      displayMessage := estimate.displayMessage }

/-! ## The controller endpoints

The `try`/`catch` around the helper call is modelled by an explicit
`Except Unit` argument: `.ok` is a normal return, `.error` a thrown
exception caught by the `catch` block. -/

/-- The JSON shape written by `res.json` in the controller; absent fields
are `none`. -/
structure ApiResponse where
  success : Bool
  error : Option String := none
  errorCode : Option String := none
  zipCode : Option String := none
  shippingMethodId : Option String := none
  transitDays : Option Nat := none
  deliveryDate : Option String := none
  deliveryDateFull : Option String := none
  displayMessage : Option String := none
  shippingMethods : Option (List MethodEstimate) := none
deriving DecidableEq, Repr

/-- A query-string parameter as seen by `isValidZipCode` (absent parameters
are `undefined`). -/
def jsOfQuery : Option String → JsValue
  | none => .jsUndefined
  | some s => .jsString s

/-- Embedding of the `PromiseDelivery-GetEstimate` controller route. -/
def GetEstimate (zipCode shippingMethodId : Option String)
    (calcResult : Except Unit DeliveryEstimate) : ApiResponse :=
  if isValidZipCode (jsOfQuery zipCode) = false then
    { success := false,
      error := some "Invalid ZIP code. Please enter a valid 5-digit US ZIP code.",
      errorCode := some "INVALID_ZIP" }
  else
    match calcResult with
    | .error _ =>
      { success := false,
        error := some "Unable to calculate delivery date. Please try again.",
        errorCode := some "CALCULATION_ERROR" }
    | .ok estimate =>
      { success := true, zipCode := zipCode,
        shippingMethodId :=
          some (if truthyStr shippingMethodId then shippingMethodId.getD "standard"
                else "standard"),
        transitDays := some estimate.transitDays,
        deliveryDate := some estimate.formattedDate,
        deliveryDateFull := some estimate.formattedDateFull,
        displayMessage := some estimate.displayMessage }

/-- Embedding of the `PromiseDelivery-GetAllEstimates` controller route.
Note the catch-block message reads "delivery dates" (plural) in the source. -/
def GetAllEstimates (zipCode : Option String)
    (calcResult : Except Unit (List MethodEstimate)) : ApiResponse :=
  if isValidZipCode (jsOfQuery zipCode) = false then
    { success := false,
      error := some "Invalid ZIP code. Please enter a valid 5-digit US ZIP code.",
      errorCode := some "INVALID_ZIP" }
  else
    match calcResult with
    | .error _ =>
      { success := false,
        error := some "Unable to calculate delivery dates. Please try again.",
        errorCode := some "CALCULATION_ERROR" }
    | .ok estimates =>
      { success := true, zipCode := zipCode, shippingMethods := some estimates }

/-! ## Safe month-day windows

`holidayMD m d` over-approximates, uniformly in the year, the month-day pairs
on which any holiday of either implementation can fall; its complement
intersected with weekdays witnesses that the business-day loops terminate. -/

/-- Month-day pairs on which a (static or dynamically computed) holiday can
possibly fall, in any year. -/
def holidayMD (m d : Nat) : Bool :=
  decide ((m = 1 ∧ (d = 1 ∨ d = 2)) ∨
    (m = 1 ∧ 15 ≤ d ∧ d ≤ 21) ∨
    (m = 2 ∧ 15 ≤ d ∧ d ≤ 21) ∨
    (m = 5 ∧ 25 ≤ d ∧ d ≤ 31) ∨
    (m = 7 ∧ 3 ≤ d ∧ d ≤ 5) ∨
    (m = 9 ∧ 1 ≤ d ∧ d ≤ 7) ∨
    (m = 10 ∧ 8 ≤ d ∧ d ≤ 14) ∨
    (m = 11 ∧ 10 ≤ d ∧ d ≤ 12) ∨
    (m = 11 ∧ 22 ≤ d ∧ d ≤ 28) ∨
    (m = 12 ∧ 24 ≤ d ∧ d ≤ 26))

/-- Month lengths as a function of the leap flag alone. -/
def dimA (leap : Bool) (m : Nat) : Nat :=
  if m = 2 then (if leap then 29 else 28)
  else if m = 4 ∨ m = 6 ∨ m = 9 ∨ m = 11 then 30
  else 31

/-- Bounded search for a safe weekday, on the year-independent abstraction
(month, day, weekday, leap flag) of a date; on a December-to-January
rollover the (unknown) leap status of the next year is checked for both
values. -/
def findSafe : Nat → Nat → Nat → Nat → Bool → Bool
  | 0, m, d, w, _ => decide (holidayMD m d = false ∧ w ≠ 0 ∧ w ≠ 6)
  | fuel + 1, m, d, w, leap =>
    if holidayMD m d = false ∧ w ≠ 0 ∧ w ≠ 6 then true
    else
      let w' := (w + 1) % 7
      if d < dimA leap m then findSafe fuel m (d + 1) w' leap
      else if m < 12 then findSafe fuel (m + 1) 1 w' leap
      else findSafe fuel 1 1 w' true && findSafe fuel 1 1 w' false

/-! ## Auxiliary value functions for the formatting proofs -/

/-- Digit value of a digit character (inverse of `digitChar` below 10). -/
def charVal (c : Char) : Nat :=
  if c = '0' then 0 else if c = '1' then 1 else if c = '2' then 2
  else if c = '3' then 3 else if c = '4' then 4 else if c = '5' then 5
  else if c = '6' then 6 else if c = '7' then 7 else if c = '8' then 8 else 9

/-- Value of a least-significant-first list of digit characters. -/
def valLSB : List Char → Nat
  | [] => 0
  | c :: t => charVal c + 10 * valLSB t

/-! # Theorems -/

/-! ## C9: ZIP validation -/

/-- C9: `isValidZipCode` returns true exactly for non-empty strings whose
digit-stripped residue has exactly 5 characters; it rejects null,
non-strings and the empty string, and accepts "123-45" and "12 345". -/
theorem C9_isValidZipCode_characterization :
    (∀ v : JsValue, isValidZipCode v = true ↔
      ∃ s : String, v = .jsString s ∧ s ≠ "" ∧
        (s.data.filter Char.isDigit).length = 5) ∧
    isValidZipCode (.jsString "123-45") = true ∧
    isValidZipCode (.jsString "12 345") = true ∧
    isValidZipCode .jsNull = false ∧
    isValidZipCode (.jsNumber 12345) = false ∧
    isValidZipCode (.jsString "") = false ∧
    isValidZipCode (.jsString "1234") = false := by
  refine ⟨?_, by decide, by decide, rfl, rfl, by decide, by decide⟩
  intro v
  cases v with
  | jsNull => simp [isValidZipCode]
  | jsUndefined => simp [isValidZipCode]
  | jsNumber n => simp [isValidZipCode]
  | jsString s =>
    constructor
    · intro h
      by_cases he : s = ""
      · subst he; exact absurd h (by decide)
      · refine ⟨s, rfl, he, ?_⟩
        simpa [isValidZipCode, isValidZipCodeStr, he, stripNonDigits,
          String.length] using h
    · rintro ⟨t, ht, hne, hlen⟩
      obtain rfl : t = s := by injection ht.symm
      simp [isValidZipCode, isValidZipCodeStr, hne, stripNonDigits,
        String.length, hlen]

/-! ## C2: transit days from ZIP ranges -/

/-- C2 counterexample: the string "123456" parses successfully to the value
123456, which lies outside all five ranges, and `getTransitDays` then
returns 5 through the trailing default branch — so a parsed value does not
always fall inside the five ranges and the default is not reached only on
parse failure, contrary to the claim. -/
theorem C2_counterexample :
    parseIntJS "123456" = some 123456 ∧
    ¬ ((0 : Int) ≤ 123456 ∧ (123456 : Int) ≤ 99999) ∧
    getTransitDays "123456" = 5 :=
  ⟨by decide, by decide, by decide⟩

/-- C2 amended: if parsing fails the result is 5, and a successfully parsed
value v is classified 1..5 by the five contiguous ranges; but v can also be
negative or exceed 99999 (signs and longer digit strings parse
successfully), in which case the trailing default branch also returns 5. -/
theorem C2_getTransitDays_amended (s : String) :
    (parseIntJS s = none → getTransitDays s = 5) ∧
    (∀ v : Int, parseIntJS s = some v →
      ((0 ≤ v ∧ v ≤ 19999) → getTransitDays s = 1) ∧
      ((20000 ≤ v ∧ v ≤ 39999) → getTransitDays s = 2) ∧
      ((40000 ≤ v ∧ v ≤ 59999) → getTransitDays s = 3) ∧
      ((60000 ≤ v ∧ v ≤ 79999) → getTransitDays s = 4) ∧
      ((80000 ≤ v ∧ v ≤ 99999) → getTransitDays s = 5) ∧
      ((v < 0 ∨ 99999 < v) → getTransitDays s = 5)) := by
  constructor
  · intro h; simp [getTransitDays, h]
  · intro v hv
    simp only [getTransitDays, hv]
    refine ⟨?_, ?_, ?_, ?_, ?_, ?_⟩ <;> intro h <;> split_ifs <;> omega

/-- C2 witness: the amended theorem applied to concrete inputs. -/
theorem C2_witness :
    getTransitDays "123456" = 5 ∧ getTransitDays "10001" = 1 :=
  ⟨((C2_getTransitDays_amended "123456").2 123456 (by decide)).2.2.2.2.2
      (by decide),
    ((C2_getTransitDays_amended "10001").2 10001 (by decide)).1 (by decide)⟩

/-! ## C8: shipping-method transit modifiers -/

/-- C8: overnight method ids always give 1 transit day, express ids give
the minimum of 2 and the base value, and any other id (including standard
and a null or unrecognized id) gives the base value. -/
theorem C8_transitDaysForShippingMethod (z : String) :
    getTransitDaysForShippingMethod (some "overnight") z = 1 ∧
    getTransitDaysForShippingMethod (some "express-overnight") z = 1 ∧
    getTransitDaysForShippingMethod (some "express") z
      = min 2 (getTransitDays z) ∧
    getTransitDaysForShippingMethod (some "2-day") z
      = min 2 (getTransitDays z) ∧
    getTransitDaysForShippingMethod (some "standard") z = getTransitDays z ∧
    getTransitDaysForShippingMethod none z = getTransitDays z ∧
    (∀ m : String,
      m ∉ (["overnight", "express-overnight", "express", "2-day"] : List String) →
      getTransitDaysForShippingMethod (some m) z = getTransitDays z) := by
  refine ⟨rfl, rfl, rfl, rfl, rfl, rfl, ?_⟩
  intro m hm
  simp only [List.mem_cons, List.not_mem_nil, or_false, not_or] at hm
  obtain ⟨h1, h2, h3, h4⟩ := hm
  simp [getTransitDaysForShippingMethod, h1, h2, h3, h4]

/-! ## Calendar lemmas -/

theorem daysInMonth_ge_28 (y : Int) (m : Nat) : 28 ≤ daysInMonth y m := by
  unfold daysInMonth; split_ifs <;> omega

theorem daysInMonth_le_31 (y : Int) (m : Nat) : daysInMonth y m ≤ 31 := by
  unfold daysInMonth; split_ifs <;> omega

theorem isLeapYear_iff (y : Int) :
    isLeapYear y = true ↔ ((y % 4 = 0 ∧ ¬ y % 100 = 0) ∨ y % 400 = 0) := by
  simp [isLeapYear]

theorem nextDay_valid {d : JsDate} (h : d.Valid) : (nextDay d).Valid := by
  obtain ⟨y, m, dd⟩ := d
  obtain ⟨h1, h2, h3, h4⟩ := h
  unfold nextDay
  split_ifs with ha hb <;> refine ⟨?_, ?_, ?_, ?_⟩ <;>
    simp_all <;> first
      | omega
      | (exact le_trans (by omega) (daysInMonth_ge_28 _ _))

theorem iterate_nextDay_valid {d : JsDate} (h : d.Valid) (k : Nat) :
    (nextDay^[k] d).Valid := by
  induction k generalizing d with
  | zero => exact h
  | succ n ih =>
    rw [Function.iterate_succ_apply]
    exact ih (nextDay_valid h)

theorem isLeapYear_spec (y : Int) :
    (isLeapYear y = true ∧ ((y % 4 = 0 ∧ ¬ y % 100 = 0) ∨ y % 400 = 0)) ∨
    (isLeapYear y = false ∧ ¬ ((y % 4 = 0 ∧ ¬ y % 100 = 0) ∨ y % 400 = 0)) := by
  cases hb : isLeapYear y
  · exact Or.inr ⟨rfl, fun p => by simp [(isLeapYear_iff y).mpr p] at hb⟩
  · exact Or.inl ⟨rfl, (isLeapYear_iff y).mp hb⟩

theorem dayNumber_nextDay {d : JsDate} (h : d.Valid) :
    dayNumber (nextDay d) = dayNumber d + 1 := by
  obtain ⟨y, m, dd⟩ := d
  obtain ⟨h1, h2, h3, h4⟩ := h
  dsimp only at h1 h2 h3 h4
  unfold nextDay
  dsimp only
  split_ifs with ha hb
  · simp only [dayNumber]
    split_ifs <;> push_cast <;> omega
  · have hdd : dd = daysInMonth y m := le_antisymm h4 (not_lt.mp ha)
    subst hdd
    rcases isLeapYear_spec y with ⟨hL, hA⟩ | ⟨hL, hA⟩ <;>
      interval_cases m <;>
        simp only [dayNumber, daysInMonth, hL] <;> norm_num <;> omega
  · have hm : m = 12 := by omega
    subst hm
    have h31 : daysInMonth y 12 = 31 := by norm_num [daysInMonth]
    rw [h31] at h4 ha
    have hdd : dd = 31 := by omega
    subst hdd
    simp only [dayNumber]
    split_ifs <;> push_cast <;> omega

theorem getDay_lt_7 (d : JsDate) : getDay d < 7 := by
  unfold getDay; omega

theorem getDay_nextDay {d : JsDate} (h : d.Valid) :
    getDay (nextDay d) = (getDay d + 1) % 7 := by
  unfold getDay
  rw [dayNumber_nextDay h]
  omega

theorem year_nextDay (d : JsDate) :
    d.year ≤ (nextDay d).year ∧ (nextDay d).year ≤ d.year + 1 := by
  unfold nextDay; split_ifs <;> simp <;> omega

theorem year_le_iterate (d : JsDate) (c : Nat) :
    d.year ≤ (nextDay^[c] d).year := by
  induction c generalizing d with
  | zero => exact le_refl _
  | succ n ih =>
    rw [Function.iterate_succ_apply]
    exact le_trans (year_nextDay d).1 (ih (nextDay d))

theorem year_mono_iterate (d : JsDate) {j k : Nat} (h : j ≤ k) :
    (nextDay^[j] d).year ≤ (nextDay^[k] d).year := by
  obtain ⟨c, rfl⟩ := Nat.exists_eq_add_of_le h
  rw [add_comm, Function.iterate_add_apply]
  exact year_le_iterate _ c

theorem nextDay_in_month (y : Int) (m dd : Nat)
    (h : dd + 1 ≤ daysInMonth y m) :
    nextDay ⟨y, m, dd⟩ = ⟨y, m, dd + 1⟩ := by
  unfold nextDay
  rw [if_pos]
  exact h

theorem iterate_nextDay_in_month (y : Int) (m : Nat) (k : Nat) :
    ∀ dd : Nat, dd + k ≤ daysInMonth y m →
      nextDay^[k] ⟨y, m, dd⟩ = ⟨y, m, dd + k⟩ := by
  induction k with
  | zero => intro dd _; simp
  | succ n ih =>
    intro dd h
    rw [Function.iterate_succ_apply, nextDay_in_month y m dd (by omega)]
    rw [ih (dd + 1) (by omega)]
    congr 1
    omega

theorem prevDay_month_start (y : Int) (m : Nat) (h1 : 1 ≤ m) (h2 : m ≤ 11) :
    prevDay ⟨y, m + 1, 1⟩ = ⟨y, m, daysInMonth y m⟩ := by
  unfold prevDay
  dsimp only
  rw [if_neg (by omega), if_pos (by omega)]
  simp only [Nat.add_sub_cancel]

theorem prevDay_in_month (y : Int) (m dd : Nat) (h : 2 ≤ dd) :
    prevDay ⟨y, m, dd⟩ = ⟨y, m, dd - 1⟩ := by
  unfold prevDay
  dsimp only
  rw [if_pos (by omega)]

theorem iterate_prevDay_in_month (y : Int) (m : Nat) (k : Nat) :
    ∀ dd : Nat, k < dd →
      prevDay^[k] ⟨y, m, dd⟩ = ⟨y, m, dd - k⟩ := by
  induction k with
  | zero => intro dd _; simp
  | succ n ih =>
    intro dd h
    rw [Function.iterate_succ_apply, prevDay_in_month y m dd (by omega)]
    rw [ih (dd - 1) (by omega)]
    congr 1
    omega

theorem mkDateJS_base (y m : Int) (hm0 : 0 ≤ m) (hm : m < 12) :
    (12 * y + m) / 12 = y ∧ ((12 * y + m) % 12).toNat = m.toNat := by
  constructor <;> omega

theorem mkDateJS_in_month (y m dd : Int) (hm0 : 0 ≤ m) (hm : m < 12)
    (hd1 : 1 ≤ dd) (hd : dd ≤ daysInMonth y (m.toNat + 1)) :
    mkDateJS y m dd = ⟨y, m.toNat + 1, dd.toNat⟩ := by
  obtain ⟨e1, e2⟩ := mkDateJS_base y m hm0 hm
  unfold mkDateJS addDaysInt
  dsimp only
  rw [e1, e2, if_pos (by omega)]
  rw [iterate_nextDay_in_month y (m.toNat + 1) (dd - 1).toNat 1 (by omega)]
  congr 1
  omega

theorem mkDateJS_back (y m dd : Int) (hm0 : 0 ≤ m) (hm : m < 12)
    (hd : dd ≤ 0) :
    mkDateJS y m dd = prevDay^[(1 - dd).toNat] ⟨y, m.toNat + 1, 1⟩ := by
  obtain ⟨e1, e2⟩ := mkDateJS_base y m hm0 hm
  unfold mkDateJS addDaysInt
  dsimp only
  rw [e1, e2, if_neg (by omega)]
  congr 1
  omega

/-! ## Characterizing the computed holiday dates -/

theorem prevDay_jan1 (y : Int) : prevDay ⟨y, 1, 1⟩ = ⟨y - 1, 12, 31⟩ := by
  unfold prevDay
  norm_num

theorem mkDateJS_y00 (y : Int) : mkDateJS y 0 0 = ⟨y - 1, 12, 31⟩ := by
  rw [mkDateJS_back y 0 0 (by norm_num) (by norm_num) (by norm_num)]
  norm_num [prevDay_jan1]

theorem mkDateJS_jan (y : Int) (dd : Int) (hd1 : 1 ≤ dd) (hd2 : dd ≤ 31) :
    mkDateJS y 0 dd = ⟨y, 1, dd.toNat⟩ := by
  have h := mkDateJS_in_month y 0 dd (by norm_num) (by norm_num) hd1
    (by norm_num [daysInMonth]; omega)
  simpa using h

theorem newYears_char (y : Int) :
    (getObservedDate (mkDateJS y 0 1) = ⟨y, 1, 1⟩ ∨
     getObservedDate (mkDateJS y 0 1) = ⟨y, 1, 2⟩ ∨
     getObservedDate (mkDateJS y 0 1) = ⟨y - 1, 12, 31⟩) ∧
    (getObservedDate (mkDateJS y 0 1)).Valid := by
  have h0 : mkDateJS y 0 1 = ⟨y, 1, 1⟩ := by simpa using mkDateJS_jan y 1 (by norm_num) (by norm_num)
  rw [h0]
  unfold getObservedDate
  dsimp only
  split_ifs with h6 hs0
  · have hb : mkDateJS y (((1 : Nat) : Int) - 1) (((1 : Nat) : Int) - 1)
        = ⟨y - 1, 12, 31⟩ := by
      norm_num [mkDateJS_y00]
    rw [hb]
    exact ⟨Or.inr (Or.inr rfl), by constructor <;> norm_num [daysInMonth]⟩
  · have hb : mkDateJS y (((1 : Nat) : Int) - 1) (((1 : Nat) : Int) + 1)
        = ⟨y, 1, 2⟩ := by
      norm_num
      simpa using mkDateJS_jan y 2 (by norm_num) (by norm_num)
    rw [hb]
    exact ⟨Or.inr (Or.inl rfl), by constructor <;> norm_num [daysInMonth]⟩
  · exact ⟨Or.inl rfl, by constructor <;> norm_num [daysInMonth]⟩

theorem observed_mid (y : Int) (m dd : Nat) (hm1 : 1 ≤ m) (hm2 : m ≤ 12)
    (hd1 : 2 ≤ dd) (hd2 : dd + 1 ≤ daysInMonth y m) :
    ∃ e : Nat, getObservedDate ⟨y, m, dd⟩ = ⟨y, m, e⟩ ∧
      dd - 1 ≤ e ∧ e ≤ dd + 1 ∧ (JsDate.mk y m e).Valid := by
  have hmm : ((m : Int) - 1).toNat + 1 = m := by omega
  have hv1 : (JsDate.mk y m (dd - 1)).Valid := by
    unfold JsDate.Valid; dsimp only; omega
  have hv2 : (JsDate.mk y m (dd + 1)).Valid := by
    unfold JsDate.Valid; dsimp only; omega
  have hv0 : (JsDate.mk y m dd).Valid := by
    unfold JsDate.Valid; dsimp only; omega
  unfold getObservedDate
  dsimp only
  split_ifs with h6 hs0
  · refine ⟨dd - 1, ?_, by omega, by omega, hv1⟩
    have h := mkDateJS_in_month y ((m : Int) - 1) ((dd : Int) - 1)
      (by omega) (by omega) (by omega) (by rw [hmm]; omega)
    rw [h]
    congr 1 <;> omega
  · refine ⟨dd + 1, ?_, by omega, by omega, hv2⟩
    have h := mkDateJS_in_month y ((m : Int) - 1) ((dd : Int) + 1)
      (by omega) (by omega) (by omega) (by rw [hmm]; omega)
    rw [h]
    congr 1 <;> omega
  · exact ⟨dd, rfl, by omega, by omega, hv0⟩

theorem nth_weekday_char (y m dow occ : Int) (hm0 : 0 ≤ m) (hm : m < 12)
    (hdow0 : 0 ≤ dow) (hdow : dow < 7) (hocc1 : 1 ≤ occ) (hocc : occ ≤ 4) :
    ∃ e : Nat, getNthWeekdayOfMonth y m dow occ = ⟨y, m.toNat + 1, e⟩ ∧
      7 * occ.toNat - 6 ≤ e ∧ e ≤ 7 * occ.toNat ∧
      (JsDate.mk y (m.toNat + 1) e).Valid := by
  have hdim := daysInMonth_ge_28 y (m.toNat + 1)
  unfold getNthWeekdayOfMonth
  dsimp only
  have hw7 : (getDay (mkDateJS y m 1) : Int) < 7 := by
    exact_mod_cast getDay_lt_7 (mkDateJS y m 1)
  have hw0 : (0 : Int) ≤ (getDay (mkDateJS y m 1) : Int) := Int.ofNat_nonneg _
  set w : Int := ((getDay (mkDateJS y m 1) : Nat) : Int) with hw
  by_cases hu : dow - w < 0
  · rw [if_pos hu]
    set dte : Int := 1 + (dow - w + 7) + (occ - 1) * 7 with hdte
    have h := mkDateJS_in_month y m dte hm0 hm (by omega) (by omega)
    have hval : (JsDate.mk y (m.toNat + 1) dte.toNat).Valid := by
      unfold JsDate.Valid; dsimp only; omega
    exact ⟨dte.toNat, h, by omega, by omega, hval⟩
  · rw [if_neg hu]
    set dte : Int := 1 + (dow - w) + (occ - 1) * 7 with hdte
    have h := mkDateJS_in_month y m dte hm0 hm (by omega) (by omega)
    have hval : (JsDate.mk y (m.toNat + 1) dte.toNat).Valid := by
      unfold JsDate.Valid; dsimp only; omega
    exact ⟨dte.toNat, h, by omega, by omega, hval⟩

theorem mkDateJS_may_back (y : Int) (t : Int) (ht0 : 0 ≤ t) (ht : t ≤ 6) :
    mkDateJS y (4 + 1) (-t) = ⟨y, 5, (31 - t).toNat⟩ := by
  have h1 : mkDateJS y (4 + 1) (-t)
      = prevDay^[(1 + t).toNat] ⟨y, 6, 1⟩ := by
    have h := mkDateJS_back y 5 (-t) (by norm_num) (by norm_num) (by omega)
    norm_num at h ⊢
    rw [h]
    rfl
  rw [h1]
  have h2 : (1 + t).toNat = t.toNat + 1 := by omega
  rw [h2, Function.iterate_succ_apply]
  have h3 : prevDay ⟨y, 6, 1⟩ = ⟨y, 5, 31⟩ := by
    have h := prevDay_month_start y 5 (by norm_num) (by norm_num)
    norm_num [daysInMonth] at h
    exact h
  rw [h3, iterate_prevDay_in_month y 5 t.toNat 31 (by omega)]
  congr 1
  omega

theorem last_monday_may_char (y : Int) :
    ∃ e : Nat, getLastWeekdayOfMonth y 4 1 = ⟨y, 5, e⟩ ∧
      25 ≤ e ∧ e ≤ 31 ∧ (JsDate.mk y 5 e).Valid := by
  have h31 : daysInMonth y 5 = 31 := by norm_num [daysInMonth]
  unfold getLastWeekdayOfMonth
  dsimp only
  have hw7 : ((getDay (mkDateJS y (4 + 1) 0) : Nat) : Int) < 7 := by
    exact_mod_cast getDay_lt_7 (mkDateJS y (4 + 1) 0)
  have hw0 : (0 : Int) ≤ ((getDay (mkDateJS y (4 + 1) 0) : Nat) : Int) :=
    Int.ofNat_nonneg _
  split_ifs with hcond
  · have h := mkDateJS_may_back y
      (((getDay (mkDateJS y (4 + 1) 0) : Nat) : Int) - 1 + 7)
      (by omega) (by omega)
    refine ⟨_, h, by omega, by omega, ?_⟩
    unfold JsDate.Valid
    dsimp only
    omega
  · have h := mkDateJS_may_back y
      (((getDay (mkDateJS y (4 + 1) 0) : Nat) : Int) - 1)
      (by omega) (by omega)
    refine ⟨_, h, by omega, by omega, ?_⟩
    unfold JsDate.Valid
    dsimp only
    omega

/-! ## Injectivity of the date formatting -/

theorem charVal_digitChar : ∀ k < 10, charVal (digitChar k) = k := by decide

theorem digitChar_inj : ∀ a < 10, ∀ b < 10, digitChar a = digitChar b → a = b := by
  decide

theorem natToCharsAux_zero (f : Nat) : natToCharsAux f 0 = [] := by
  cases f <;> rfl

theorem valLSB_natToCharsAux : ∀ f n, n ≤ f → valLSB (natToCharsAux f n) = n := by
  intro f
  induction f with
  | zero =>
    intro n h
    obtain rfl : n = 0 := by omega
    rfl
  | succ g ih =>
    intro n h
    match n with
    | 0 => rfl
    | k + 1 =>
      show valLSB (digitChar ((k + 1) % 10) :: natToCharsAux g ((k + 1) / 10))
        = k + 1
      unfold valLSB
      rw [ih ((k + 1) / 10) (by omega), charVal_digitChar _ (by omega)]
      omega

theorem natToCharsAux_digits : ∀ f n, ∀ c ∈ natToCharsAux f n,
    ∃ k, k < 10 ∧ c = digitChar k := by
  intro f
  induction f with
  | zero => intro n c hc; simp [natToCharsAux] at hc
  | succ g ih =>
    intro n c hc
    match n with
    | 0 => simp [natToCharsAux] at hc
    | k + 1 =>
      rw [show natToCharsAux (g + 1) (k + 1)
        = digitChar ((k + 1) % 10) :: natToCharsAux g ((k + 1) / 10) from rfl] at hc
      rcases List.mem_cons.mp hc with h | h
      · exact ⟨(k + 1) % 10, by omega, h⟩
      · exact ih _ c h

theorem natToChars_inj {a b : Nat} (h : natToChars a = natToChars b) : a = b := by
  unfold natToChars at h
  split_ifs at h with ha hb hb
  · omega
  · exfalso
    have hrev : natToCharsAux b b = ['0'] := by
      have := congrArg List.reverse h
      simpa using this.symm
    have := valLSB_natToCharsAux b b (le_refl b)
    rw [hrev] at this
    simp [valLSB, charVal] at this
    omega
  · exfalso
    have hrev : natToCharsAux a a = ['0'] := by
      have := congrArg List.reverse h
      simpa using this
    have := valLSB_natToCharsAux a a (le_refl a)
    rw [hrev] at this
    simp [valLSB, charVal] at this
    omega
  · have hrev : natToCharsAux a a = natToCharsAux b b := by
      have := congrArg List.reverse h
      simpa using this
    have va := valLSB_natToCharsAux a a (le_refl a)
    have vb := valLSB_natToCharsAux b b (le_refl b)
    rw [hrev, vb] at va
    exact va.symm

theorem natToChars_ne_nil (n : Nat) : natToChars n ≠ [] := by
  unfold natToChars
  split_ifs with h
  · simp
  · intro hc
    have hrev : natToCharsAux n n = [] := by
      have := congrArg List.reverse hc
      simpa using this
    have := valLSB_natToCharsAux n n (le_refl n)
    rw [hrev] at this
    simp [valLSB] at this
    omega

theorem natToChars_digits (n : Nat) :
    ∀ c ∈ natToChars n, ∃ k, k < 10 ∧ c = digitChar k := by
  unfold natToChars
  split_ifs with h
  · intro c hc
    simp at hc
    exact ⟨0, by omega, by rw [hc]; rfl⟩
  · intro c hc
    exact natToCharsAux_digits n n c (List.mem_reverse.mp hc)

theorem intToChars_head_digit (n : Nat) :
    ∃ k t, k < 10 ∧ natToChars n = digitChar k :: t := by
  rcases hE : natToChars n with _ | ⟨c, t⟩
  · exact absurd hE (natToChars_ne_nil n)
  · obtain ⟨k, hk, hc⟩ := natToChars_digits n c (by rw [hE]; exact List.mem_cons_self c t)
    exact ⟨k, t, hk, by rw [hc]⟩

theorem digitChar_ne_dash : ∀ k < 10, digitChar k ≠ '-' := by decide

theorem intToChars_inj {a b : Int} (h : intToChars a = intToChars b) : a = b := by
  unfold intToChars at h
  split_ifs at h with ha hb hb
  · have hn : natToChars (-a).toNat = natToChars (-b).toNat := by
      exact List.cons_injective h
    have := natToChars_inj hn
    omega
  · exfalso
    obtain ⟨k, t, hk, hE⟩ := intToChars_head_digit b.toNat
    rw [hE] at h
    have : '-' = digitChar k := by injection h
    exact digitChar_ne_dash k hk this.symm
  · exfalso
    obtain ⟨k, t, hk, hE⟩ := intToChars_head_digit a.toNat
    rw [hE] at h
    have : digitChar k = '-' := by injection h
    exact digitChar_ne_dash k hk this
  · have := natToChars_inj h
    omega

theorem natToCharsAux_small {f j : Nat} (h1 : 1 ≤ j) (h2 : j < 10) (hf : j ≤ f) :
    natToCharsAux f j = [digitChar j] := by
  obtain ⟨g, rfl⟩ : ∃ g, f = g + 1 := ⟨f - 1, by omega⟩
  obtain ⟨i, rfl⟩ : ∃ i, j = i + 1 := ⟨j - 1, by omega⟩
  show digitChar ((i + 1) % 10) :: natToCharsAux g ((i + 1) / 10) = _
  rw [show (i + 1) / 10 = 0 by omega, natToCharsAux_zero,
    show (i + 1) % 10 = i + 1 by omega]

theorem natToChars_small {n : Nat} (h : n < 10) : natToChars n = [digitChar n] := by
  unfold natToChars
  split_ifs with h0
  · subst h0; rfl
  · rw [natToCharsAux_small (by omega) h (le_refl n)]
    rfl

theorem natToChars_two {n : Nat} (h1 : 10 ≤ n) (h2 : n ≤ 99) :
    natToChars n = [digitChar (n / 10), digitChar (n % 10)] := by
  obtain ⟨k, rfl⟩ : ∃ k, n = k + 1 := ⟨n - 1, by omega⟩
  unfold natToChars
  rw [if_neg (by omega)]
  rw [show natToCharsAux (k + 1) (k + 1)
    = digitChar ((k + 1) % 10) :: natToCharsAux k ((k + 1) / 10) from rfl]
  rw [natToCharsAux_small (by omega) (by omega) (by omega)]
  rfl

theorem pad2Chars_len {n : Nat} (h : n ≤ 99) : (pad2Chars n).length = 2 := by
  unfold pad2Chars
  split_ifs with h10
  · rw [natToChars_small h10]; rfl
  · rw [natToChars_two (by omega) h]; rfl

theorem pad2Chars_inj {a b : Nat} (ha : a ≤ 99) (hb : b ≤ 99)
    (h : pad2Chars a = pad2Chars b) : a = b := by
  unfold pad2Chars at h
  split_ifs at h with h1 h2 h2
  · rw [natToChars_small h1, natToChars_small h2] at h
    have : digitChar a = digitChar b := by injection (List.cons_injective h)
    exact digitChar_inj a h1 b h2 this
  · exfalso
    rw [natToChars_small h1, natToChars_two (by omega) hb] at h
    have h0 : '0' = digitChar (b / 10) := by injection h
    have := digitChar_inj 0 (by omega) (b / 10) (by omega) h0
    omega
  · exfalso
    rw [natToChars_two (by omega) ha, natToChars_small h2] at h
    have h0 : digitChar (a / 10) = '0' := by injection h
    have := digitChar_inj (a / 10) (by omega) 0 (by omega) h0
    omega
  · rw [natToChars_two (by omega) ha, natToChars_two (by omega) hb] at h
    simp only [List.cons.injEq, and_true] at h
    obtain ⟨e1, e2⟩ := h
    have q1 := digitChar_inj (a / 10) (by omega) (b / 10) (by omega) e1
    have q2 := digitChar_inj (a % 10) (by omega) (b % 10) (by omega) e2
    omega

theorem formatDateString_inj {d1 d2 : JsDate} (hv1 : d1.Valid) (hv2 : d2.Valid)
    (h : formatDateString d1 = formatDateString d2) : d1 = d2 := by
  obtain ⟨y1, m1, a1⟩ := d1
  obtain ⟨y2, m2, a2⟩ := d2
  obtain ⟨hA, hB, hC, hD⟩ := hv1
  obtain ⟨hE, hF, hG, hH⟩ := hv2
  dsimp only at hA hB hC hD hE hF hG hH
  have hd31 := daysInMonth_le_31 y1 m1
  have he31 := daysInMonth_le_31 y2 m2
  have hd : (intToChars y1 ++ ('-' :: pad2Chars m1) ++ ('-' :: pad2Chars a1))
      = (intToChars y2 ++ ('-' :: pad2Chars m2) ++ ('-' :: pad2Chars a2)) := by
    have := congrArg String.data h
    simpa [formatDateString] using this
  have hlen1 : ('-' :: pad2Chars a1).length = ('-' :: pad2Chars a2).length := by
    simp [pad2Chars_len (show a1 ≤ 99 by omega),
      pad2Chars_len (show a2 ≤ 99 by omega)]
  obtain ⟨h12, h3⟩ := List.append_inj' hd hlen1
  have hlen2 : ('-' :: pad2Chars m1).length = ('-' :: pad2Chars m2).length := by
    simp [pad2Chars_len (show m1 ≤ 99 by omega),
      pad2Chars_len (show m2 ≤ 99 by omega)]
  obtain ⟨h1, h2⟩ := List.append_inj' h12 hlen2
  have hy := intToChars_inj h1
  have hm := pad2Chars_inj (show m1 ≤ 99 by omega) (show m2 ≤ 99 by omega)
    (List.cons_injective h2)
  have ha := pad2Chars_inj (show a1 ≤ 99 by omega) (show a2 ≤ 99 by omega)
    (List.cons_injective h3)
  simp [hy, hm, ha]

/-! ## Named characterizations of each computed holiday -/

theorem mlk_char (y : Int) : ∃ e : Nat, getNthWeekdayOfMonth y 0 1 3 = ⟨y, 1, e⟩ ∧
    15 ≤ e ∧ e ≤ 21 ∧ (JsDate.mk y 1 e).Valid := by
  obtain ⟨e, q, a, b, v⟩ := nth_weekday_char y 0 1 3
    (by norm_num) (by norm_num) (by norm_num) (by norm_num) (by norm_num) (by norm_num)
  norm_num at q a b v
  exact ⟨e, q, by omega, by omega, v⟩

theorem pres_char (y : Int) : ∃ e : Nat, getNthWeekdayOfMonth y 1 1 3 = ⟨y, 2, e⟩ ∧
    15 ≤ e ∧ e ≤ 21 ∧ (JsDate.mk y 2 e).Valid := by
  obtain ⟨e, q, a, b, v⟩ := nth_weekday_char y 1 1 3
    (by norm_num) (by norm_num) (by norm_num) (by norm_num) (by norm_num) (by norm_num)
  norm_num at q a b v
  exact ⟨e, q, by omega, by omega, v⟩

theorem labor_char (y : Int) : ∃ e : Nat, getNthWeekdayOfMonth y 8 1 1 = ⟨y, 9, e⟩ ∧
    1 ≤ e ∧ e ≤ 7 ∧ (JsDate.mk y 9 e).Valid := by
  obtain ⟨e, q, a, b, v⟩ := nth_weekday_char y 8 1 1
    (by norm_num) (by norm_num) (by norm_num) (by norm_num) (by norm_num) (by norm_num)
  norm_num at q a b v
  exact ⟨e, q, by omega, by omega, v⟩

theorem columbus_char (y : Int) : ∃ e : Nat, getNthWeekdayOfMonth y 9 1 2 = ⟨y, 10, e⟩ ∧
    8 ≤ e ∧ e ≤ 14 ∧ (JsDate.mk y 10 e).Valid := by
  obtain ⟨e, q, a, b, v⟩ := nth_weekday_char y 9 1 2
    (by norm_num) (by norm_num) (by norm_num) (by norm_num) (by norm_num) (by norm_num)
  norm_num at q a b v
  exact ⟨e, q, by omega, by omega, v⟩

theorem thanksgiving_char (y : Int) :
    ∃ e : Nat, getNthWeekdayOfMonth y 10 4 4 = ⟨y, 11, e⟩ ∧
    22 ≤ e ∧ e ≤ 28 ∧ (JsDate.mk y 11 e).Valid := by
  obtain ⟨e, q, a, b, v⟩ := nth_weekday_char y 10 4 4
    (by norm_num) (by norm_num) (by norm_num) (by norm_num) (by norm_num) (by norm_num)
  norm_num at q a b v
  exact ⟨e, q, by omega, by omega, v⟩

theorem july_char (y : Int) : ∃ e : Nat, getObservedDate (mkDateJS y 6 4) = ⟨y, 7, e⟩ ∧
    3 ≤ e ∧ e ≤ 5 ∧ (JsDate.mk y 7 e).Valid := by
  have hJ : mkDateJS y 6 4 = ⟨y, 7, 4⟩ := by
    have := mkDateJS_in_month y 6 4 (by norm_num) (by norm_num) (by norm_num)
      (by rw [show Int.toNat 6 + 1 = 7 from rfl]; norm_num [daysInMonth])
    exact this
  rw [hJ]
  obtain ⟨e, q, a, b, v⟩ := observed_mid y 7 4
    (by norm_num) (by norm_num) (by norm_num) (by norm_num [daysInMonth])
  exact ⟨e, q, by omega, by omega, v⟩

theorem vet_char (y : Int) : ∃ e : Nat, getObservedDate (mkDateJS y 10 11) = ⟨y, 11, e⟩ ∧
    10 ≤ e ∧ e ≤ 12 ∧ (JsDate.mk y 11 e).Valid := by
  have hV : mkDateJS y 10 11 = ⟨y, 11, 11⟩ := by
    have := mkDateJS_in_month y 10 11 (by norm_num) (by norm_num) (by norm_num)
      (by rw [show Int.toNat 10 + 1 = 11 from rfl]; norm_num [daysInMonth])
    exact this
  rw [hV]
  obtain ⟨e, q, a, b, v⟩ := observed_mid y 11 11
    (by norm_num) (by norm_num) (by norm_num) (by norm_num [daysInMonth])
  exact ⟨e, q, by omega, by omega, v⟩

theorem xmas_char (y : Int) : ∃ e : Nat, getObservedDate (mkDateJS y 11 25) = ⟨y, 12, e⟩ ∧
    24 ≤ e ∧ e ≤ 26 ∧ (JsDate.mk y 12 e).Valid := by
  have hX : mkDateJS y 11 25 = ⟨y, 12, 25⟩ := by
    have := mkDateJS_in_month y 11 25 (by norm_num) (by norm_num) (by norm_num)
      (by rw [show Int.toNat 11 + 1 = 12 from rfl]; norm_num [daysInMonth])
    exact this
  rw [hX]
  obtain ⟨e, q, a, b, v⟩ := observed_mid y 12 25
    (by norm_num) (by norm_num) (by norm_num) (by norm_num [daysInMonth])
  exact ⟨e, q, by omega, by omega, v⟩

/-! ## Every holiday falls on a holiday-prone month-day pair -/

theorem holidayMD_iff (m d : Nat) : holidayMD m d = true ↔
    ((m = 1 ∧ (d = 1 ∨ d = 2)) ∨
    (m = 1 ∧ 15 ≤ d ∧ d ≤ 21) ∨
    (m = 2 ∧ 15 ≤ d ∧ d ≤ 21) ∨
    (m = 5 ∧ 25 ≤ d ∧ d ≤ 31) ∨
    (m = 7 ∧ 3 ≤ d ∧ d ≤ 5) ∨
    (m = 9 ∧ 1 ≤ d ∧ d ≤ 7) ∨
    (m = 10 ∧ 8 ≤ d ∧ d ≤ 14) ∨
    (m = 11 ∧ 10 ≤ d ∧ d ≤ 12) ∨
    (m = 11 ∧ 22 ≤ d ∧ d ≤ 28) ∨
    (m = 12 ∧ 24 ≤ d ∧ d ≤ 26)) := by
  simp [holidayMD]

theorem holidayElem_char (y : Int) :
    ∀ s ∈ calculateHolidaysForYear y, ∃ D : JsDate,
      s = formatDateString D ∧ D.Valid ∧
      ((D.year = y ∧ holidayMD D.month D.day = true) ∨ D = ⟨y - 1, 12, 31⟩) := by
  intro s hs
  unfold calculateHolidaysForYear at hs
  simp only [List.mem_cons, List.not_mem_nil, or_false] at hs
  rcases hs with h | h | h | h | h | h | h | h | h | h
  · obtain ⟨hcases, hval⟩ := newYears_char y
    rcases hcases with he | he | he <;> rw [he] at h hval <;> refine ⟨_, h, hval, ?_⟩
    · exact Or.inl ⟨rfl, by simp [holidayMD]⟩
    · exact Or.inl ⟨rfl, by simp [holidayMD]⟩
    · exact Or.inr rfl
  · obtain ⟨e, hEq, hb1, hb2, hval⟩ := mlk_char y
    rw [hEq] at h
    exact ⟨_, h, hval, Or.inl ⟨rfl, by dsimp only; rw [holidayMD_iff]; omega⟩⟩
  · obtain ⟨e, hEq, hb1, hb2, hval⟩ := pres_char y
    rw [hEq] at h
    exact ⟨_, h, hval, Or.inl ⟨rfl, by dsimp only; rw [holidayMD_iff]; omega⟩⟩
  · obtain ⟨e, hEq, hb1, hb2, hval⟩ := last_monday_may_char y
    rw [hEq] at h
    exact ⟨_, h, hval, Or.inl ⟨rfl, by dsimp only; rw [holidayMD_iff]; omega⟩⟩
  · obtain ⟨e, hEq, hb1, hb2, hval⟩ := july_char y
    rw [hEq] at h
    exact ⟨_, h, hval, Or.inl ⟨rfl, by dsimp only; rw [holidayMD_iff]; omega⟩⟩
  · obtain ⟨e, hEq, hb1, hb2, hval⟩ := labor_char y
    rw [hEq] at h
    exact ⟨_, h, hval, Or.inl ⟨rfl, by dsimp only; rw [holidayMD_iff]; omega⟩⟩
  · obtain ⟨e, hEq, hb1, hb2, hval⟩ := columbus_char y
    rw [hEq] at h
    exact ⟨_, h, hval, Or.inl ⟨rfl, by dsimp only; rw [holidayMD_iff]; omega⟩⟩
  · obtain ⟨e, hEq, hb1, hb2, hval⟩ := vet_char y
    rw [hEq] at h
    exact ⟨_, h, hval, Or.inl ⟨rfl, by dsimp only; rw [holidayMD_iff]; omega⟩⟩
  · obtain ⟨e, hEq, hb1, hb2, hval⟩ := thanksgiving_char y
    rw [hEq] at h
    exact ⟨_, h, hval, Or.inl ⟨rfl, by dsimp only; rw [holidayMD_iff]; omega⟩⟩
  · obtain ⟨e, hEq, hb1, hb2, hval⟩ := xmas_char y
    rw [hEq] at h
    exact ⟨_, h, hval, Or.inl ⟨rfl, by dsimp only; rw [holidayMD_iff]; omega⟩⟩

theorem isHolidayDynamic_md {d : JsDate} (hv : d.Valid)
    (h : isHolidayDynamic d = true) : holidayMD d.month d.day = true := by
  unfold isHolidayDynamic at h
  have hmem : formatDateString d ∈ calculateHolidaysForYear d.year :=
    List.elem_iff.mp h
  obtain ⟨D, hs, hvD, hcase⟩ := holidayElem_char d.year _ hmem
  have hd : d = D := formatDateString_inj hv hvD hs
  rcases hcase with ⟨hy, hu⟩ | hD
  · rw [hd]; exact hu
  · exfalso
    have hyy := congrArg JsDate.year hd
    rw [hD] at hyy
    dsimp only at hyy
    omega

theorem staticDates_spec :
    HOLIDAYS = (([⟨2024,1,1⟩, ⟨2024,1,15⟩, ⟨2024,2,19⟩, ⟨2024,5,27⟩,
      ⟨2024,7,4⟩, ⟨2024,9,2⟩, ⟨2024,10,14⟩, ⟨2024,11,11⟩, ⟨2024,11,28⟩,
      ⟨2024,12,25⟩, ⟨2025,1,1⟩, ⟨2025,1,20⟩, ⟨2025,2,17⟩, ⟨2025,5,26⟩,
      ⟨2025,7,4⟩, ⟨2025,9,1⟩, ⟨2025,10,13⟩, ⟨2025,11,11⟩, ⟨2025,11,27⟩,
      ⟨2025,12,25⟩] : List JsDate).map formatDateString) := by decide

theorem staticDates_props :
    ∀ E ∈ (([⟨2024,1,1⟩, ⟨2024,1,15⟩, ⟨2024,2,19⟩, ⟨2024,5,27⟩,
      ⟨2024,7,4⟩, ⟨2024,9,2⟩, ⟨2024,10,14⟩, ⟨2024,11,11⟩, ⟨2024,11,28⟩,
      ⟨2024,12,25⟩, ⟨2025,1,1⟩, ⟨2025,1,20⟩, ⟨2025,2,17⟩, ⟨2025,5,26⟩,
      ⟨2025,7,4⟩, ⟨2025,9,1⟩, ⟨2025,10,13⟩, ⟨2025,11,11⟩, ⟨2025,11,27⟩,
      ⟨2025,12,25⟩] : List JsDate)), E.Valid ∧ holidayMD E.month E.day = true := by
  decide

theorem isHolidayStatic_md {d : JsDate} (hv : d.Valid)
    (h : isHolidayStatic d = true) : holidayMD d.month d.day = true := by
  unfold isHolidayStatic at h
  have hmem := List.elem_iff.mp h
  rw [staticDates_spec] at hmem
  obtain ⟨E, hE, hfmt⟩ := List.mem_map.mp hmem
  obtain ⟨hvE, hu⟩ := staticDates_props E hE
  have hd : d = E := formatDateString_inj hv hvE hfmt.symm
  rw [hd]; exact hu

/-! ## Existence of a business day within a bounded window -/

theorem isBusinessDayGen_true_of_safe {hol : JsDate → Bool}
    (hHol : ∀ E : JsDate, E.Valid → hol E = true → holidayMD E.month E.day = true)
    {d : JsDate} (hv : d.Valid) (hsafe : holidayMD d.month d.day = false)
    (hw0 : getDay d ≠ 0) (hw6 : getDay d ≠ 6) :
    isBusinessDayGen hol d = true := by
  unfold isBusinessDayGen
  rw [if_neg (by simp [hw0, hw6])]
  cases hhd : hol d with
  | true => rw [hHol d hv hhd] at hsafe; exact absurd hsafe (by simp)
  | false => rfl

theorem daysInMonth_eq_dimA (y : Int) (m : Nat) :
    daysInMonth y m = dimA (isLeapYear y) m := rfl

theorem findSafe_sound (hol : JsDate → Bool)
    (hHol : ∀ E : JsDate, E.Valid → hol E = true → holidayMD E.month E.day = true) :
    ∀ (fuel : Nat) (d : JsDate), d.Valid →
      findSafe fuel d.month d.day (getDay d) (isLeapYear d.year) = true →
      ∃ k, k ≤ fuel ∧ isBusinessDayGen hol (nextDay^[k] d) = true := by
  intro fuel
  induction fuel with
  | zero =>
    intro d hv h
    refine ⟨0, le_refl 0, ?_⟩
    simp only [findSafe, decide_eq_true_eq] at h
    exact isBusinessDayGen_true_of_safe hHol hv h.1 h.2.1 h.2.2
  | succ f ih =>
    intro d hv h
    unfold findSafe at h
    by_cases hc : holidayMD d.month d.day = false ∧ getDay d ≠ 0 ∧ getDay d ≠ 6
    · exact ⟨0, by omega,
        isBusinessDayGen_true_of_safe hHol hv hc.1 hc.2.1 hc.2.2⟩
    · rw [if_neg hc] at h
      have hwd : getDay (nextDay d) = (getDay d + 1) % 7 := getDay_nextDay hv
      have hv' := nextDay_valid hv
      obtain ⟨y, m, dd⟩ := d
      obtain ⟨h1, h2, h3, h4⟩ := hv
      dsimp only at h1 h2 h3 h4 h hwd
      have hstep : findSafe f (nextDay ⟨y, m, dd⟩).month (nextDay ⟨y, m, dd⟩).day
          (getDay (nextDay ⟨y, m, dd⟩)) (isLeapYear (nextDay ⟨y, m, dd⟩).year)
          = true := by
        rw [hwd]
        unfold nextDay
        by_cases ha : dd < daysInMonth y m
        · rw [if_pos ha]
          dsimp only
          rw [if_pos (by rw [daysInMonth_eq_dimA] at ha; exact ha)] at h
          exact h
        · rw [if_neg ha]
          by_cases hb : m < 12
          · rw [if_pos hb]
            dsimp only
            rw [if_neg (by rw [daysInMonth_eq_dimA] at ha; exact ha),
              if_pos hb] at h
            exact h
          · rw [if_neg hb]
            dsimp only
            rw [if_neg (by rw [daysInMonth_eq_dimA] at ha; exact ha),
              if_neg hb] at h
            simp only [Bool.and_eq_true] at h
            cases hL : isLeapYear (y + 1)
            · exact h.2
            · exact h.1
      obtain ⟨k, hk, hb⟩ := ih (nextDay ⟨y, m, dd⟩) hv' hstep
      exact ⟨k + 1, by omega, by rw [Function.iterate_succ_apply]; exact hb⟩

theorem findSafe_thirteen : ∀ m < 12, ∀ dd < 31, ∀ w < 7, ∀ leap : Bool,
    dd + 1 ≤ dimA leap (m + 1) → findSafe 13 (m + 1) (dd + 1) w leap = true := by
  decide

theorem safe_exists (hol : JsDate → Bool)
    (hHol : ∀ E : JsDate, E.Valid → hol E = true → holidayMD E.month E.day = true)
    {d : JsDate} (hv : d.Valid) :
    ∃ k, k ≤ 13 ∧ isBusinessDayGen hol (nextDay^[k] d) = true := by
  apply findSafe_sound hol hHol 13 d hv
  obtain ⟨hm1, hm2, hd1, hd2⟩ := hv
  have h31 := daysInMonth_le_31 d.year d.month
  have hg := getDay_lt_7 d
  have e1 : d.month - 1 + 1 = d.month := by omega
  have e2 : d.day - 1 + 1 = d.day := by omega
  have h := findSafe_thirteen (d.month - 1) (by omega) (d.day - 1) (by omega)
    (getDay d) hg (isLeapYear d.year)
    (by rw [e1, e2, ← daysInMonth_eq_dimA]; exact hd2)
  rwa [e1, e2] at h

/-! ## Specifications of the search loops -/

theorem iterate_pred_succ (k0 : Nat) (h : 1 ≤ k0) (c : JsDate) :
    nextDay^[k0 - 1] (nextDay c) = nextDay^[k0] c := by
  rw [← Function.iterate_succ_apply]
  congr 1
  omega

theorem nextBizAux_spec (p : JsDate → Bool) :
    ∀ (fuel : Nat) (c : JsDate),
      (∃ k0, k0 < fuel ∧ p (nextDay^[k0] c) = true) →
      ∃ k, nextBizAux p fuel c = nextDay^[k] c ∧ p (nextDay^[k] c) = true ∧
        (∀ j, j < k → p (nextDay^[j] c) = false) ∧
        (∀ k0, p (nextDay^[k0] c) = true → k ≤ k0) := by
  intro fuel
  induction fuel with
  | zero =>
    intro c ⟨k0, hk0, _⟩
    omega
  | succ f ih =>
    intro c ⟨k0, hk0, hp0⟩
    unfold nextBizAux
    by_cases hc : p c = true
    · rw [if_pos hc]
      exact ⟨0, by simp, by simpa using hc, by omega,
        fun j _ => Nat.zero_le j⟩
    · rw [if_neg hc]
      have hcf : p c = false := by simpa using hc
      have hk0' : k0 ≠ 0 := by
        intro h0
        rw [h0] at hp0
        simp only [Function.iterate_zero, id_eq] at hp0
        rw [hp0] at hcf
        exact absurd hcf (by simp)
      have hstep : ∃ k1, k1 < f ∧ p (nextDay^[k1] (nextDay c)) = true := by
        refine ⟨k0 - 1, by omega, ?_⟩
        rw [iterate_pred_succ k0 (by omega)]
        exact hp0
      obtain ⟨k, heq, hp, hmin, hle⟩ := ih (nextDay c) hstep
      refine ⟨k + 1, ?_, ?_, ?_, ?_⟩
      · rw [heq, ← Function.iterate_succ_apply]
      · rw [Function.iterate_succ_apply]; exact hp
      · intro j hj
        cases j with
        | zero => simpa using hcf
        | succ i =>
          rw [Function.iterate_succ_apply]
          exact hmin i (by omega)
      · intro j hj
        cases j with
        | zero =>
          simp only [Function.iterate_zero, id_eq] at hj
          rw [hj] at hcf
          exact absurd hcf (by simp)
        | succ i =>
          rw [Function.iterate_succ_apply] at hj
          have := hle i hj
          omega

theorem getNextBusinessDayGen_spec (p : JsDate → Bool) (d : JsDate)
    (hex : ∃ k0, 1 ≤ k0 ∧ k0 ≤ 14 ∧ p (nextDay^[k0] d) = true) :
    ∃ k, 1 ≤ k ∧ k ≤ 14 ∧ getNextBusinessDayGen p d = nextDay^[k] d ∧
      p (nextDay^[k] d) = true ∧
      (∀ j, 1 ≤ j → j < k → p (nextDay^[j] d) = false) := by
  obtain ⟨k0, hk01, hk014, hp0⟩ := hex
  have hp0' : p (nextDay^[k0 - 1] (nextDay d)) = true := by
    rw [iterate_pred_succ k0 (by omega)]
    exact hp0
  have hstart : ∃ k1, k1 < 366 ∧ p (nextDay^[k1] (nextDay d)) = true :=
    ⟨k0 - 1, by omega, hp0'⟩
  obtain ⟨k, heq, hp, hmin, hle⟩ := nextBizAux_spec p 366 (nextDay d) hstart
  have hk14 : k + 1 ≤ 14 := by
    have := hle (k0 - 1) hp0'
    omega
  refine ⟨k + 1, by omega, hk14, ?_, ?_, ?_⟩
  · unfold getNextBusinessDayGen
    rw [heq, ← Function.iterate_succ_apply]
  · rw [Function.iterate_succ_apply]; exact hp
  · intro j hj1 hjk
    obtain ⟨i, rfl⟩ : ∃ i, j = i + 1 := ⟨j - 1, by omega⟩
    rw [Function.iterate_succ_apply]
    exact hmin i (by omega)

theorem addBizAux_zero (p : JsDate → Bool) (fuel : Nat) (c : JsDate) :
    addBizAux p fuel c 0 = c := by
  cases fuel <;> rfl

theorem addBizAux_step (p : JsDate → Bool) :
    ∀ (k : Nat), 1 ≤ k → ∀ (c : JsDate) (fuel n : Nat), k ≤ fuel → 1 ≤ n →
      p (nextDay^[k] c) = true →
      (∀ j, 1 ≤ j → j < k → p (nextDay^[j] c) = false) →
      addBizAux p fuel c n = addBizAux p (fuel - k) (nextDay^[k] c) (n - 1) := by
  intro k
  induction k with
  | zero => intro h1; exact absurd h1 (by omega)
  | succ i ih =>
    intro _ c fuel n hkf hn hp hmin
    obtain ⟨f, rfl⟩ : ∃ f, fuel = f + 1 := ⟨fuel - 1, by omega⟩
    conv_lhs => unfold addBizAux
    rw [if_neg (by omega)]
    dsimp only
    cases i with
    | zero =>
      have hp1 : p (nextDay c) = true := by
        have h := hp
        rwa [Function.iterate_one] at h
      rw [if_pos hp1,
        show f + 1 - (0 + 1) = f from by omega,
        show nextDay^[0 + 1] c = nextDay c from by simp,
        show n - 1 = n - 1 from rfl]
    | succ j =>
      have hp1 : p (nextDay c) = false := by
        have h := hmin 1 (by omega) (by omega)
        rwa [Function.iterate_one] at h
      rw [if_neg (by simp [hp1])]
      have ihh := ih (by omega) (nextDay c) f n (by omega) hn
        (by rw [Function.iterate_succ_apply] at hp; exact hp)
        (by
          intro j' hj1 hj2
          have h := hmin (j' + 1) (by omega) (by omega)
          rw [Function.iterate_succ_apply] at h
          exact h)
      rw [ihh,
        show f + 1 - (j + 1 + 1) = f - (j + 1) from by omega,
        show nextDay^[j + 1 + 1] c = nextDay^[j + 1] (nextDay c) from
          Function.iterate_succ_apply nextDay (j + 1) c]

theorem addBizAux_eq_iter (p : JsDate → Bool)
    (hex : ∀ e : JsDate, e.Valid →
      ∃ k0, 1 ≤ k0 ∧ k0 ≤ 14 ∧ p (nextDay^[k0] e) = true) :
    ∀ (n : Nat) (c : JsDate), c.Valid → ∀ fuel, 14 * n ≤ fuel →
      addBizAux p fuel c n = (getNextBusinessDayGen p)^[n] c := by
  intro n
  induction n with
  | zero =>
    intro c _ fuel _
    rw [addBizAux_zero]
    rfl
  | succ m ih =>
    intro c hv fuel hfuel
    obtain ⟨k, hk1, hk14, heq, hp, hmin⟩ :=
      getNextBusinessDayGen_spec p c (hex c hv)
    rw [addBizAux_step p k hk1 c fuel (m + 1) (by omega) (by omega) hp hmin]
    have hv' : (nextDay^[k] c).Valid := iterate_nextDay_valid hv k
    have e1 : m + 1 - 1 = m := by omega
    rw [e1, ih (nextDay^[k] c) hv' (fuel - k) (by omega)]
    rw [← heq, ← Function.iterate_succ_apply]

theorem addBusinessDaysGen_eq_iter (p : JsDate → Bool)
    (hex : ∀ e : JsDate, e.Valid →
      ∃ k0, 1 ≤ k0 ∧ k0 ≤ 14 ∧ p (nextDay^[k0] e) = true)
    (c : JsDate) (hv : c.Valid) (n : Nat) :
    addBusinessDaysGen p c n = (getNextBusinessDayGen p)^[n] c := by
  unfold addBusinessDaysGen
  exact addBizAux_eq_iter p hex n c hv (366 * n) (by omega)

/-! ## Distinctness of the ten holiday strings -/

theorem fmt_ne_of_md {D E : JsDate} (hD : D.Valid) (hE : E.Valid)
    (h : D.month ≠ E.month ∨ D.day ≠ E.day) :
    formatDateString D ≠ formatDateString E := by
  intro he
  have heq := formatDateString_inj hD hE he
  rcases h with h | h <;> (rw [heq] at h; exact h rfl)

set_option maxHeartbeats 1000000 in
theorem calcHolidays_pairwise (y : Int) :
    (calculateHolidaysForYear y).Pairwise (· ≠ ·) := by
  obtain ⟨e2, q2, a2, b2, v2⟩ := mlk_char y
  obtain ⟨e3, q3, a3, b3, v3⟩ := pres_char y
  obtain ⟨e4, q4, a4, b4, v4⟩ := last_monday_may_char y
  obtain ⟨e5, q5, a5, b5, v5⟩ := july_char y
  obtain ⟨e6, q6, a6, b6, v6⟩ := labor_char y
  obtain ⟨e7, q7, a7, b7, v7⟩ := columbus_char y
  obtain ⟨e8, q8, a8, b8, v8⟩ := vet_char y
  obtain ⟨e9, q9, a9, b9, v9⟩ := thanksgiving_char y
  obtain ⟨e10, q10, a10, b10, v10⟩ := xmas_char y
  obtain ⟨hNor, vN⟩ := newYears_char y
  unfold calculateHolidaysForYear
  rw [q2, q3, q4, q5, q6, q7, q8, q9, q10]
  have htail : (([⟨y, 1, e2⟩, ⟨y, 2, e3⟩, ⟨y, 5, e4⟩, ⟨y, 7, e5⟩, ⟨y, 9, e6⟩,
      ⟨y, 10, e7⟩, ⟨y, 11, e8⟩, ⟨y, 11, e9⟩, ⟨y, 12, e10⟩] :
      List JsDate).map formatDateString).Pairwise (· ≠ ·) := by
    rw [List.pairwise_map]
    rw [List.pairwise_iff_get]
    intro i j hij
    fin_cases i <;> fin_cases j <;>
      simp only [Fin.mk_lt_mk] at hij <;>
      first
        | exact absurd hij (by omega)
        | (simp only [List.get]
           refine fmt_ne_of_md ?_ ?_ ?_ <;>
            first
              | assumption
              | (dsimp only; omega))
  have htail' : ((formatDateString (⟨y, 1, e2⟩ : JsDate)) ::
      (formatDateString (⟨y, 2, e3⟩ : JsDate)) ::
      (formatDateString (⟨y, 5, e4⟩ : JsDate)) ::
      (formatDateString (⟨y, 7, e5⟩ : JsDate)) ::
      (formatDateString (⟨y, 9, e6⟩ : JsDate)) ::
      (formatDateString (⟨y, 10, e7⟩ : JsDate)) ::
      (formatDateString (⟨y, 11, e8⟩ : JsDate)) ::
      (formatDateString (⟨y, 11, e9⟩ : JsDate)) ::
      [formatDateString (⟨y, 12, e10⟩ : JsDate)]).Pairwise (· ≠ ·) := htail
  rcases hNor with hN | hN | hN <;> rw [hN] at vN ⊢ <;>
    refine List.Pairwise.cons ?_ htail' <;>
    intro b hb <;>
    simp only [List.mem_cons, List.not_mem_nil, or_false] at hb <;>
    rcases hb with rfl | rfl | rfl | rfl | rfl | rfl | rfl | rfl | rfl <;>
      (refine fmt_ne_of_md ?_ ?_ ?_ <;>
        first
          | assumption
          | (dsimp only; omega))

/-! ## The holiday cache -/

theorem cacheLookup_wf {c : HolidayCache}
    (hwf : ∀ p ∈ c, p.2 = calculateHolidaysForYear p.1)
    {y : Int} {l : List String} (h : cacheLookup c y = some l) :
    l = calculateHolidaysForYear y := by
  unfold cacheLookup at h
  cases hf : c.find? (fun p => p.1 == y) with
  | none => rw [hf] at h; exact absurd h (by simp)
  | some q =>
    rw [hf] at h
    have hmem := List.mem_of_find?_eq_some hf
    have hq : q.1 = y := by simpa using List.find?_some hf
    have hql : q.2 = l := by injection h
    rw [← hql, hwf q hmem, hq]

theorem cacheLookup_cons_self (y : Int) (l : List String) (c : HolidayCache) :
    cacheLookup ((y, l) :: c) y = some l := by
  unfold cacheLookup
  rw [List.find?_cons_of_pos _ (by simp)]

/-- C3: for every year, `getHolidaysForYear` returns exactly ten pairwise
distinct date strings (namely `calculateHolidaysForYear year`), and a
repeated call with the same year returns the identical list and leaves the
cache unchanged, reading the memoized entry instead of recomputing.
The hypothesis states that every cache entry holds the list computed for
its key, which is true initially (empty cache) and preserved by every
call (final conjunct). -/
theorem C3_getHolidaysForYear (c : HolidayCache) (year : Int)
    (hwf : ∀ p ∈ c, p.2 = calculateHolidaysForYear p.1) :
    ((getHolidaysForYear c year).1).length = 10 ∧
    ((getHolidaysForYear c year).1).Pairwise (· ≠ ·) ∧
    (getHolidaysForYear c year).1 = calculateHolidaysForYear year ∧
    getHolidaysForYear (getHolidaysForYear c year).2 year
      = getHolidaysForYear c year ∧
    (∀ p ∈ (getHolidaysForYear c year).2, p.2 = calculateHolidaysForYear p.1) := by
  have hcalc_len : (calculateHolidaysForYear year).length = 10 := rfl
  cases hL : cacheLookup c year with
  | some l =>
    have hl := cacheLookup_wf hwf hL
    have hres : getHolidaysForYear c year = (l, c) := by
      unfold getHolidaysForYear
      rw [hL]
    rw [hres]
    exact ⟨by rw [hl, hcalc_len], by rw [hl]; exact calcHolidays_pairwise year,
      hl, hres, hwf⟩
  | none =>
    have hres : getHolidaysForYear c year
        = (calculateHolidaysForYear year,
           (year, calculateHolidaysForYear year) :: c) := by
      unfold getHolidaysForYear
      rw [hL]
    rw [hres]
    refine ⟨hcalc_len, calcHolidays_pairwise year, rfl, ?_, ?_⟩
    · unfold getHolidaysForYear
      rw [cacheLookup_cons_self]
    · intro p hp
      rcases List.mem_cons.mp hp with rfl | hp
      · rfl
      · exact hwf p hp

/-- C3 witness: the theorem applied to the empty cache and the year 2026. -/
theorem C3_witness :
    ((getHolidaysForYear [] 2026).1).length = 10 ∧
    ((getHolidaysForYear [] 2026).1).Pairwise (· ≠ ·) ∧
    getHolidaysForYear (getHolidaysForYear [] 2026).2 2026
      = getHolidaysForYear [] 2026 :=
  ⟨(C3_getHolidaysForYear [] 2026 (by simp)).1,
   (C3_getHolidaysForYear [] 2026 (by simp)).2.1,
   (C3_getHolidaysForYear [] 2026 (by simp)).2.2.2.1⟩

/-! ## C4: the observed New Years day of a Saturday January 1st -/

/-- C4: if January 1 of year y falls on a Saturday, the computed holiday
list for y contains the date string of December 31 of year y-1 (the
observed New Years Day); yet the dynamic `isBusinessDay` of that
December 31 is true, because the holiday lookup consults only the holiday
set keyed by the year of the date itself (y-1), whose list does not
contain its own December 31. The observed holiday is therefore treated as
an ordinary business day. -/
theorem C4_observed_new_year_lost (y : Int) (h6 : getDay ⟨y, 1, 1⟩ = 6) :
    formatDateString ⟨y - 1, 12, 31⟩ ∈ calculateHolidaysForYear y ∧
    isBusinessDayD ⟨y - 1, 12, 31⟩ = true := by
  have h0 : mkDateJS y 0 1 = ⟨y, 1, 1⟩ := by
    simpa using mkDateJS_jan y 1 (by norm_num) (by norm_num)
  have hobs : getObservedDate (mkDateJS y 0 1) = ⟨y - 1, 12, 31⟩ := by
    rw [h0]
    unfold getObservedDate
    dsimp only
    rw [if_pos h6]
    norm_num [mkDateJS_y00]
  constructor
  · unfold calculateHolidaysForYear
    rw [hobs]
    exact List.mem_cons_self _ _
  · have hw : getDay ⟨y - 1, 12, 31⟩ = 5 := by
      unfold getDay dayNumber at h6 ⊢
      dsimp only at h6 ⊢
      norm_num at h6 ⊢
      omega
    have hval : (JsDate.mk (y - 1) 12 31).Valid := by
      unfold JsDate.Valid
      norm_num [daysInMonth]
    have hnh : isHolidayDynamic ⟨y - 1, 12, 31⟩ = false := by
      cases hh : isHolidayDynamic ⟨y - 1, 12, 31⟩ with
      | false => rfl
      | true =>
        exfalso
        have hu := isHolidayDynamic_md hval hh
        dsimp only at hu
        rw [holidayMD_iff] at hu
        omega
    unfold isBusinessDayD isBusinessDayGen
    rw [if_neg (by simp [hw]), hnh]
    rfl

/-- C4 witness: the year 2022, whose January 1 was a Saturday. -/
theorem C4_witness :
    formatDateString ⟨2021, 12, 31⟩ ∈ calculateHolidaysForYear 2022 ∧
    isBusinessDayD ⟨2021, 12, 31⟩ = true := by
  have h := C4_observed_new_year_lost 2022 (by decide)
  norm_num at h
  exact h

/-! ## C10 and C5: termination and the business-day advancement loops -/

theorem bizS_exists {d : JsDate} (hv : d.Valid) :
    ∃ k0, 1 ≤ k0 ∧ k0 ≤ 14 ∧ isBusinessDayS (nextDay^[k0] d) = true := by
  obtain ⟨k, hk, hb⟩ := safe_exists isHolidayStatic
    (fun E hE hh => isHolidayStatic_md hE hh) (nextDay_valid hv)
  refine ⟨k + 1, by omega, by omega, ?_⟩
  rw [Function.iterate_succ_apply]
  exact hb

theorem bizD_exists {d : JsDate} (hv : d.Valid) :
    ∃ k0, 1 ≤ k0 ∧ k0 ≤ 14 ∧ isBusinessDayD (nextDay^[k0] d) = true := by
  obtain ⟨k, hk, hb⟩ := safe_exists isHolidayDynamic
    (fun E hE hh => isHolidayDynamic_md hE hh) (nextDay_valid hv)
  refine ⟨k + 1, by omega, by omega, ?_⟩
  rw [Function.iterate_succ_apply]
  exact hb

theorem iter_nextBiz_bound (p : JsDate → Bool)
    (hex : ∀ e : JsDate, e.Valid →
      ∃ k0, 1 ≤ k0 ∧ k0 ≤ 14 ∧ p (nextDay^[k0] e) = true) :
    ∀ (n : Nat) (d : JsDate), d.Valid →
      ∃ m, m ≤ 14 * n ∧ (getNextBusinessDayGen p)^[n] d = nextDay^[m] d := by
  intro n
  induction n with
  | zero => intro d _; exact ⟨0, by omega, rfl⟩
  | succ h ih =>
    intro d hv
    obtain ⟨k, hk1, hk14, heq, hp, _⟩ := getNextBusinessDayGen_spec p d (hex d hv)
    have hv' : (nextDay^[k] d).Valid := iterate_nextDay_valid hv k
    obtain ⟨m, hm, hiter⟩ := ih (nextDay^[k] d) hv'
    refine ⟨m + k, by omega, ?_⟩
    rw [Function.iterate_succ_apply, heq, hiter, ← Function.iterate_add_apply]

/-- C10: from every normalized date there is a business day (under either
holiday model) within 366 calendar days; both `getNextBusinessDay` variants
reach the strictly next business day within that bound, and both
`addBusinessDays` variants reach their result after at most 366 calendar
days per requested business day — the search loops always terminate within
the claimed window. -/
theorem C10_loops_terminate (d : JsDate) (hv : d.Valid) :
    (∃ k, 1 ≤ k ∧ k ≤ 366 ∧ isBusinessDayS (nextDay^[k] d) = true) ∧
    (∃ k, 1 ≤ k ∧ k ≤ 366 ∧ isBusinessDayD (nextDay^[k] d) = true) ∧
    (∃ k, 1 ≤ k ∧ k ≤ 366 ∧ getNextBusinessDayS d = nextDay^[k] d ∧
      isBusinessDayS (nextDay^[k] d) = true) ∧
    (∃ k, 1 ≤ k ∧ k ≤ 366 ∧ getNextBusinessDayD d = nextDay^[k] d ∧
      isBusinessDayD (nextDay^[k] d) = true) ∧
    (∀ n : Nat, ∃ m, m ≤ 366 * n ∧ addBusinessDaysS d n = nextDay^[m] d) ∧
    (∀ n : Nat, ∃ m, m ≤ 366 * n ∧ addBusinessDaysD d n = nextDay^[m] d) := by
  obtain ⟨kS, hS1, hS14, hSp⟩ := bizS_exists hv
  obtain ⟨kD, hD1, hD14, hDp⟩ := bizD_exists hv
  refine ⟨⟨kS, hS1, by omega, hSp⟩, ⟨kD, hD1, by omega, hDp⟩, ?_, ?_, ?_, ?_⟩
  · obtain ⟨k, h1, h14, heq, hp, _⟩ :=
      getNextBusinessDayGen_spec isBusinessDayS d ⟨kS, hS1, hS14, hSp⟩
    exact ⟨k, h1, by omega, heq, hp⟩
  · obtain ⟨k, h1, h14, heq, hp, _⟩ :=
      getNextBusinessDayGen_spec isBusinessDayD d ⟨kD, hD1, hD14, hDp⟩
    exact ⟨k, h1, by omega, heq, hp⟩
  · intro n
    obtain ⟨m, hm, hiter⟩ :=
      iter_nextBiz_bound isBusinessDayS (fun e he => bizS_exists he) n d hv
    refine ⟨m, by omega, ?_⟩
    rw [show addBusinessDaysS d n
      = addBusinessDaysGen isBusinessDayS d n from rfl]
    rw [addBusinessDaysGen_eq_iter isBusinessDayS (fun e he => bizS_exists he) d hv n]
    exact hiter
  · intro n
    obtain ⟨m, hm, hiter⟩ :=
      iter_nextBiz_bound isBusinessDayD (fun e he => bizD_exists he) n d hv
    refine ⟨m, by omega, ?_⟩
    rw [show addBusinessDaysD d n
      = addBusinessDaysGen isBusinessDayD d n from rfl]
    rw [addBusinessDaysGen_eq_iter isBusinessDayD (fun e he => bizD_exists he) d hv n]
    exact hiter

/-- C10 witness: the theorem applied to the concrete date 2024-06-03. -/
theorem C10_witness :
    ∃ k, 1 ≤ k ∧ k ≤ 366 ∧ isBusinessDayS (nextDay^[k] ⟨2024, 6, 3⟩) = true :=
  (C10_loops_terminate ⟨2024, 6, 3⟩ (by decide)).1

/-- C5: for every normalized date, `addBusinessDays` with 0 returns the
date unchanged (both bindings), and for every n the result is the n-fold
iterate of `getNextBusinessDay`, where `getNextBusinessDay` returns exactly
the first business day strictly after its argument (it is a business day,
lies strictly in the future, and every strictly earlier future day is not a
business day) — i.e. `addBusinessDays d n` is the n-th business day
strictly after d, with weekends and holidays skipped silently. -/
theorem C5_addBusinessDays_spec (d : JsDate) (hv : d.Valid) :
    addBusinessDaysS d 0 = d ∧ addBusinessDaysD d 0 = d ∧
    (∀ n : Nat, addBusinessDaysS d n = (getNextBusinessDayS)^[n] d) ∧
    (∀ n : Nat, addBusinessDaysD d n = (getNextBusinessDayD)^[n] d) ∧
    (∃ k, 1 ≤ k ∧ getNextBusinessDayS d = nextDay^[k] d ∧
      isBusinessDayS (nextDay^[k] d) = true ∧
      (∀ j, 1 ≤ j → j < k → isBusinessDayS (nextDay^[j] d) = false)) ∧
    (∃ k, 1 ≤ k ∧ getNextBusinessDayD d = nextDay^[k] d ∧
      isBusinessDayD (nextDay^[k] d) = true ∧
      (∀ j, 1 ≤ j → j < k → isBusinessDayD (nextDay^[j] d) = false)) := by
  refine ⟨addBizAux_zero _ _ _, addBizAux_zero _ _ _, ?_, ?_, ?_, ?_⟩
  · intro n
    exact addBusinessDaysGen_eq_iter isBusinessDayS
      (fun e he => bizS_exists he) d hv n
  · intro n
    exact addBusinessDaysGen_eq_iter isBusinessDayD
      (fun e he => bizD_exists he) d hv n
  · obtain ⟨k, h1, _, heq, hp, hmin⟩ :=
      getNextBusinessDayGen_spec isBusinessDayS d (bizS_exists hv)
    exact ⟨k, h1, heq, hp, hmin⟩
  · obtain ⟨k, h1, _, heq, hp, hmin⟩ :=
      getNextBusinessDayGen_spec isBusinessDayD d (bizD_exists hv)
    exact ⟨k, h1, heq, hp, hmin⟩

set_option maxRecDepth 16000 in
/-- C5 witness: the theorem applied to 2024-12-27 (a Friday); one business
day later is Monday 2024-12-30, and from 2024-12-24 one business day later
is 2024-12-26 (Christmas skipped). -/
theorem C5_witness :
    addBusinessDaysS ⟨2024, 12, 27⟩ 0 = ⟨2024, 12, 27⟩ ∧
    addBusinessDaysS ⟨2024, 12, 27⟩ 1 = (getNextBusinessDayS)^[1] ⟨2024, 12, 27⟩ ∧
    addBusinessDaysS ⟨2024, 12, 27⟩ 1 = ⟨2024, 12, 30⟩ ∧
    addBusinessDaysD ⟨2024, 12, 24⟩ 1 = ⟨2024, 12, 26⟩ :=
  ⟨(C5_addBusinessDays_spec ⟨2024, 12, 27⟩ (by decide)).1,
   (C5_addBusinessDays_spec ⟨2024, 12, 27⟩ (by decide)).2.2.1 1,
   by decide, by decide⟩

/-- C8 witness: an unrecognized method id falls back to the base value. -/
theorem C8_witness :
    getTransitDaysForShippingMethod (some "foo") "10001"
      = getTransitDays "10001" :=
  (C8_transitDaysForShippingMethod "10001").2.2.2.2.2.2 "foo" (by decide)

/-! ## C6: the cutoff hour and the ship date -/

/-- C6 counterexample: at a valid instant during daylight saving time
(UTC hour 18, New York civil hour 14, caller-local hour 20, a Monday that
is a business day), the origin-zone hour is 14, so by the claim the ship
date should be the next business day; but the fixed-offset client
`getShipDate` computes its hour as UTC-5 = 13 < 14 and ships today. The
hour used is therefore not always the origin-zone wall-clock hour. -/
theorem C6_counterexample :
    (Instant.mk ⟨2025, 7, 7⟩ 20 18 14).Valid ∧
    ¬ ((Instant.mk ⟨2025, 7, 7⟩ 20 18 14).nyHour < 14) ∧
    getShipDateCFix (Instant.mk ⟨2025, 7, 7⟩ 20 18 14) = ⟨2025, 7, 7⟩ ∧
    getNextBusinessDayS ⟨2025, 7, 7⟩ = ⟨2025, 7, 8⟩ ∧
    (⟨2025, 7, 7⟩ : JsDate) ≠ ⟨2025, 7, 8⟩ := by
  refine ⟨by decide, by decide, by decide, by decide, by decide⟩

/-- C6 amended: the server `getShipDate` branches on the origin-zone
(America/New_York) hour exactly as claimed, and the fixed-offset client
`getShipDate` branches the same way but on the fixed UTC-5 hour; the two
agree whenever New York is on standard time (offset -5), while during
daylight saving the client hour is one hour behind the origin-zone hour. -/
theorem C6_getShipDate_amended (i : Instant) (hv : i.Valid) :
    (getShipDateS i
      = if i.nyHour < 14 ∧ isBusinessDayS i.today then i.today
        else getNextBusinessDayS i.today) ∧
    (getShipDateCFix i
      = if (i.utcHour + 19) % 24 < 14 ∧ isBusinessDayS i.today then i.today
        else getNextBusinessDayS i.today) ∧
    (i.nyHour = (i.utcHour + 19) % 24 → getShipDateCFix i = getShipDateS i) := by
  refine ⟨rfl, rfl, ?_⟩
  intro h
  unfold getShipDateCFix getShipDateS
  rw [h]

/-- C6 witness: the amended theorem applied at a standard-time instant. -/
theorem C6_witness :
    getShipDateCFix (Instant.mk ⟨2025, 12, 8⟩ 9 14 9)
      = getShipDateS (Instant.mk ⟨2025, 12, 8⟩ 9 14 9) :=
  (C6_getShipDate_amended (Instant.mk ⟨2025, 12, 8⟩ 9 14 9) (by decide)).2.2
    (by decide)

/-! ## C7: the controller error shapes -/

/-- C7 counterexample: the calculation-error response of `GetAllEstimates`
does not carry the message quoted in the claim — its message reads
"delivery dates" (plural), not "delivery date". -/
theorem C7_counterexample :
    (GetAllEstimates (some "12345") (Except.error ())).errorCode
      = some "CALCULATION_ERROR" ∧
    (GetAllEstimates (some "12345") (Except.error ())).error
      ≠ some "Unable to calculate delivery date. Please try again." ∧
    (GetAllEstimates (some "12345") (Except.error ())).error
      = some "Unable to calculate delivery dates. Please try again." := by
  refine ⟨by decide, by decide, by decide⟩

/-- C7 amended: `GetEstimate` returns the fixed INVALID_ZIP shape exactly
when the ZIP fails validation, the fixed CALCULATION_ERROR shape when the
calculation throws, and otherwise the success shape with the method id
defaulting to "standard"; `GetAllEstimates` returns the identical
INVALID_ZIP shape and a CALCULATION_ERROR shape with the same error code
but the plural message "Unable to calculate delivery dates. Please try
again."; no failure escapes as anything but a `success := false` body. -/
theorem C7_controller_responses (zipCode shippingMethodId : Option String)
    (calcE : Except Unit DeliveryEstimate)
    (calcA : Except Unit (List MethodEstimate)) :
    (isValidZipCode (jsOfQuery zipCode) = false →
      GetEstimate zipCode shippingMethodId calcE =
        { success := false,
          error := some "Invalid ZIP code. Please enter a valid 5-digit US ZIP code.",
          errorCode := some "INVALID_ZIP" } ∧
      GetAllEstimates zipCode calcA =
        { success := false,
          error := some "Invalid ZIP code. Please enter a valid 5-digit US ZIP code.",
          errorCode := some "INVALID_ZIP" }) ∧
    (isValidZipCode (jsOfQuery zipCode) = true →
      GetEstimate zipCode shippingMethodId (Except.error ()) =
        { success := false,
          error := some "Unable to calculate delivery date. Please try again.",
          errorCode := some "CALCULATION_ERROR" } ∧
      GetAllEstimates zipCode (Except.error ()) =
        { success := false,
          error := some "Unable to calculate delivery dates. Please try again.",
          errorCode := some "CALCULATION_ERROR" } ∧
      (∀ est : DeliveryEstimate,
        GetEstimate zipCode shippingMethodId (Except.ok est) =
          { success := true, zipCode := zipCode,
            shippingMethodId := some (if truthyStr shippingMethodId
              then shippingMethodId.getD "standard" else "standard"),
            transitDays := some est.transitDays,
            deliveryDate := some est.formattedDate,
            deliveryDateFull := some est.formattedDateFull,
            displayMessage := some est.displayMessage }) ∧
      (∀ ests : List MethodEstimate,
        GetAllEstimates zipCode (Except.ok ests) =
          { success := true, zipCode := zipCode,
            shippingMethods := some ests })) := by
  constructor
  · intro h
    constructor
    · unfold GetEstimate
      rw [if_pos h]
    · unfold GetAllEstimates
      rw [if_pos h]
  · intro h
    have hne : ¬ (isValidZipCode (jsOfQuery zipCode) = false) := by simp [h]
    refine ⟨?_, ?_, ?_, ?_⟩
    · unfold GetEstimate
      rw [if_neg hne]
    · unfold GetAllEstimates
      rw [if_neg hne]
    · intro est
      unfold GetEstimate
      rw [if_neg hne]
    · intro ests
      unfold GetAllEstimates
      rw [if_neg hne]

/-- C7 witness: the amended theorem applied to a valid and to a missing
ZIP parameter. -/
theorem C7_witness :
    GetEstimate (some "12345") none (Except.error ()) =
      { success := false,
        error := some "Unable to calculate delivery date. Please try again.",
        errorCode := some "CALCULATION_ERROR" } ∧
    GetEstimate none none (Except.error ()) =
      { success := false,
        error := some "Invalid ZIP code. Please enter a valid 5-digit US ZIP code.",
        errorCode := some "INVALID_ZIP" } :=
  ⟨((C7_controller_responses (some "12345") none (Except.error ())
      (Except.error ())).2 (by decide)).1,
   ((C7_controller_responses none none (Except.error ())
      (Except.error ())).1 (by decide)).1⟩

/-! ## C1: comparing the two calculateDeliveryDate bindings -/

theorem contains_eq_of_mem_iff {l1 l2 : List String} (s : String)
    (h : s ∈ l1 ↔ s ∈ l2) : l1.contains s = l2.contains s := by
  by_cases hm : s ∈ l2
  · show List.elem s l1 = List.elem s l2
    rw [List.elem_iff.mpr hm, List.elem_iff.mpr (h.mpr hm)]
  · have h1 : l1.contains s = false := by
      cases hb : l1.contains s with
      | false => rfl
      | true => exact absurd (h.mp (List.elem_iff.mp hb)) hm
    have h2 : l2.contains s = false := by
      cases hb : l2.contains s with
      | false => rfl
      | true => exact absurd (List.elem_iff.mp hb) hm
    rw [h1, h2]

theorem mem_fmt_map {d : JsDate} (hv : d.Valid) {L : List JsDate}
    (hL : ∀ E ∈ L, E.Valid) :
    formatDateString d ∈ L.map formatDateString ↔ d ∈ L := by
  constructor
  · intro h
    obtain ⟨E, hE, hfmt⟩ := List.mem_map.mp h
    rw [formatDateString_inj hv (hL E hE) hfmt.symm]
    exact hE
  · intro h
    exact List.mem_map.mpr ⟨d, h, rfl⟩

set_option maxRecDepth 16000 in
theorem dyn2024 : calculateHolidaysForYear 2024
    = (([⟨2024,1,1⟩, ⟨2024,1,15⟩, ⟨2024,2,19⟩, ⟨2024,5,27⟩, ⟨2024,7,4⟩,
        ⟨2024,9,2⟩, ⟨2024,10,14⟩, ⟨2024,11,11⟩, ⟨2024,11,28⟩, ⟨2024,12,25⟩] :
        List JsDate).map formatDateString) := by decide

set_option maxRecDepth 16000 in
theorem dyn2025 : calculateHolidaysForYear 2025
    = (([⟨2025,1,1⟩, ⟨2025,1,20⟩, ⟨2025,2,17⟩, ⟨2025,5,26⟩, ⟨2025,7,4⟩,
        ⟨2025,9,1⟩, ⟨2025,10,13⟩, ⟨2025,11,11⟩, ⟨2025,11,27⟩, ⟨2025,12,25⟩] :
        List JsDate).map formatDateString) := by decide

set_option maxRecDepth 16000 in
theorem static_split : HOLIDAYS
    = calculateHolidaysForYear 2024 ++ calculateHolidaysForYear 2025 := by
  decide

theorem staticDyn_agree {d : JsDate} (hv : d.Valid)
    (h1 : 2024 ≤ d.year) (h2 : d.year ≤ 2025) :
    isBusinessDayS d = isBusinessDayD d := by
  have hv24 : ∀ E ∈ (([⟨2024,1,1⟩, ⟨2024,1,15⟩, ⟨2024,2,19⟩, ⟨2024,5,27⟩,
      ⟨2024,7,4⟩, ⟨2024,9,2⟩, ⟨2024,10,14⟩, ⟨2024,11,11⟩, ⟨2024,11,28⟩,
      ⟨2024,12,25⟩] : List JsDate)), E.Valid := by decide
  have hv25 : ∀ E ∈ (([⟨2025,1,1⟩, ⟨2025,1,20⟩, ⟨2025,2,17⟩, ⟨2025,5,26⟩,
      ⟨2025,7,4⟩, ⟨2025,9,1⟩, ⟨2025,10,13⟩, ⟨2025,11,11⟩, ⟨2025,11,27⟩,
      ⟨2025,12,25⟩] : List JsDate)), E.Valid := by decide
  have hy24 : ∀ E ∈ (([⟨2024,1,1⟩, ⟨2024,1,15⟩, ⟨2024,2,19⟩, ⟨2024,5,27⟩,
      ⟨2024,7,4⟩, ⟨2024,9,2⟩, ⟨2024,10,14⟩, ⟨2024,11,11⟩, ⟨2024,11,28⟩,
      ⟨2024,12,25⟩] : List JsDate)), E.year = 2024 := by decide
  have hy25 : ∀ E ∈ (([⟨2025,1,1⟩, ⟨2025,1,20⟩, ⟨2025,2,17⟩, ⟨2025,5,26⟩,
      ⟨2025,7,4⟩, ⟨2025,9,1⟩, ⟨2025,10,13⟩, ⟨2025,11,11⟩, ⟨2025,11,27⟩,
      ⟨2025,12,25⟩] : List JsDate)), E.year = 2025 := by decide
  have hHol : isHolidayStatic d = isHolidayDynamic d := by
    unfold isHolidayStatic isHolidayDynamic
    have hyy : d.year = 2024 ∨ d.year = 2025 := by omega
    rcases hyy with hy | hy <;> rw [hy] <;> apply contains_eq_of_mem_iff <;>
      rw [static_split, List.mem_append]
    · constructor
      · rintro (h | h)
        · exact h
        · exfalso
          rw [dyn2025, mem_fmt_map hv hv25] at h
          have := hy25 d h
          omega
      · exact fun h => Or.inl h
    · constructor
      · rintro (h | h)
        · exfalso
          rw [dyn2024, mem_fmt_map hv hv24] at h
          have := hy24 d h
          omega
        · exact h
      · exact fun h => Or.inr h
  unfold isBusinessDayD isBusinessDayS isBusinessDayGen
  rw [hHol]

theorem nextBiz_agree (pS pD : JsDate → Bool) {d : JsDate}
    (hexS : ∃ k0, 1 ≤ k0 ∧ k0 ≤ 14 ∧ pS (nextDay^[k0] d) = true)
    (hexD : ∃ k0, 1 ≤ k0 ∧ k0 ≤ 14 ∧ pD (nextDay^[k0] d) = true)
    (hag : ∀ k, k ≤ 14 → pS (nextDay^[k] d) = pD (nextDay^[k] d)) :
    getNextBusinessDayGen pS d = getNextBusinessDayGen pD d ∧
    ∃ m, 1 ≤ m ∧ m ≤ 14 ∧ getNextBusinessDayGen pS d = nextDay^[m] d := by
  obtain ⟨k1, a1, b1, e1, p1, m1⟩ := getNextBusinessDayGen_spec pS d hexS
  obtain ⟨k2, a2, b2, e2, p2, m2⟩ := getNextBusinessDayGen_spec pD d hexD
  have hk : k1 = k2 := by
    rcases lt_trichotomy k1 k2 with h | h | h
    · have hf := m2 k1 a1 h
      rw [← hag k1 (by omega), p1] at hf
      exact absurd hf (by simp)
    · exact h
    · have hf := m1 k2 a2 h
      rw [hag k2 (by omega), p2] at hf
      exact absurd hf (by simp)
  exact ⟨by rw [e1, e2, hk], k1, a1, b1, e1⟩

theorem iterNextBiz_agree (pS pD : JsDate → Bool)
    (hexS : ∀ e : JsDate, e.Valid →
      ∃ k0, 1 ≤ k0 ∧ k0 ≤ 14 ∧ pS (nextDay^[k0] e) = true)
    (hexD : ∀ e : JsDate, e.Valid →
      ∃ k0, 1 ≤ k0 ∧ k0 ≤ 14 ∧ pD (nextDay^[k0] e) = true) :
    ∀ (n : Nat) (d : JsDate), d.Valid →
      (∀ k, k ≤ 14 * n → pS (nextDay^[k] d) = pD (nextDay^[k] d)) →
      (getNextBusinessDayGen pS)^[n] d = (getNextBusinessDayGen pD)^[n] d := by
  intro n
  induction n with
  | zero => exact fun d _ _ => rfl
  | succ nn ih =>
    intro d hv hag
    obtain ⟨heq, m1, a1, b1, e1⟩ := nextBiz_agree pS pD (hexS d hv) (hexD d hv)
      (fun k hk => hag k (by omega))
    have hv' : (nextDay^[m1] d).Valid := iterate_nextDay_valid hv m1
    have hag' : ∀ k, k ≤ 14 * nn →
        pS (nextDay^[k] (nextDay^[m1] d)) = pD (nextDay^[k] (nextDay^[m1] d)) := by
      intro k hk
      rw [← Function.iterate_add_apply]
      exact hag (k + m1) (by omega)
    have hi := ih (nextDay^[m1] d) hv' hag'
    rw [Function.iterate_succ_apply, Function.iterate_succ_apply, ← heq, e1, hi]

theorem getTransitDays_le_5 (z : String) : getTransitDays z ≤ 5 := by
  unfold getTransitDays
  cases hp : parseIntJS z with
  | none => dsimp only; omega
  | some v => dsimp only; split_ifs <;> omega

theorem getTransitDaysForShippingMethod_le_5 (m : Option String) (z : String) :
    getTransitDaysForShippingMethod m z ≤ 5 := by
  have := getTransitDays_le_5 z
  unfold getTransitDaysForShippingMethod
  dsimp only
  split_ifs <;> first
    | omega
    | (simp only [Nat.min_def]; split_ifs <;> omega)

set_option maxRecDepth 16000 in
/-- C1 counterexample: at the valid instant 2026-01-01, 09:00 New York
time (a Thursday), the server binding treats the day as a business day
(its static holiday list covers only 2024-2025), ships 2026-01-01 and
delivers 2026-01-02; the dynamic client binding computes 2026-01-01 as the
New Years holiday, ships 2026-01-02 and delivers 2026-01-05. The two
surface bindings disagree on both ship date and delivery date at this
fixed instant. -/
theorem C1_counterexample :
    (Instant.mk ⟨2026, 1, 1⟩ 9 14 9).Valid ∧
    (calculateDeliveryDateS (Instant.mk ⟨2026, 1, 1⟩ 9 14 9) "10001" none).shipDate
      = ⟨2026, 1, 1⟩ ∧
    (calculateDeliveryDateD (some 9) (Instant.mk ⟨2026, 1, 1⟩ 9 14 9) "10001" none).shipDate
      = ⟨2026, 1, 2⟩ ∧
    (calculateDeliveryDateS (Instant.mk ⟨2026, 1, 1⟩ 9 14 9) "10001" none).deliveryDate
      = ⟨2026, 1, 2⟩ ∧
    (calculateDeliveryDateD (some 9) (Instant.mk ⟨2026, 1, 1⟩ 9 14 9) "10001" none).deliveryDate
      = ⟨2026, 1, 5⟩ :=
  ⟨by decide, by decide, by decide, by decide, by decide⟩

/-- C1 amended: when the time-zone API succeeds (the client reads the same
New York hour as the server) and every date within 100 days of today lies
in the calendar years 2024-2025 — the span covered by the static server
holiday list — the two `calculateDeliveryDate` bindings return identical
results (same ship date, transit days, delivery date, and formatted
strings). Outside that span they diverge, since the server list has no
holidays for other years (see the counterexample). -/
theorem C1_surface_equivalence_amended (i : Instant) (hv : i.Valid)
    (zip : String) (method : Option String)
    (hy1 : 2024 ≤ i.today.year) (hy2 : (nextDay^[100] i.today).year ≤ 2025) :
    calculateDeliveryDateS i zip method
      = calculateDeliveryDateD (some i.nyHour) i zip method := by
  obtain ⟨hvd, _, _, _, _⟩ := hv
  have hag : ∀ k, k ≤ 100 →
      isBusinessDayS (nextDay^[k] i.today) = isBusinessDayD (nextDay^[k] i.today) := by
    intro k hk
    refine staticDyn_agree (iterate_nextDay_valid hvd k) ?_ ?_
    · exact le_trans hy1 (year_le_iterate _ k)
    · exact le_trans (year_mono_iterate _ hk) hy2
  have hag0 : isBusinessDayS i.today = isBusinessDayD i.today := by
    have h := hag 0 (by omega)
    simpa using h
  obtain ⟨hnext, s, hs1, hs14, hsoff⟩ := nextBiz_agree isBusinessDayS
    isBusinessDayD (bizS_exists hvd) (bizD_exists hvd)
    (fun k hk => hag k (by omega))
  have hship : getShipDateS i = getShipDateCIntl (some i.nyHour) i := by
    unfold getShipDateS getShipDateCIntl
    rw [hag0]
    rw [show getNextBusinessDayS i.today = getNextBusinessDayD i.today from hnext]
  have hshipoff : ∃ s0, s0 ≤ 14 ∧ getShipDateS i = nextDay^[s0] i.today := by
    unfold getShipDateS
    split_ifs with hc
    · exact ⟨0, by omega, rfl⟩
    · exact ⟨s, by omega, hsoff⟩
  obtain ⟨s0, hs0, hshipeq⟩ := hshipoff
  have hshipv : (getShipDateS i).Valid := by
    rw [hshipeq]
    exact iterate_nextDay_valid hvd s0
  have hT5 : (if truthyStr method then getTransitDaysForShippingMethod method zip
      else getTransitDays zip) ≤ 5 := by
    split_ifs
    · exact getTransitDaysForShippingMethod_le_5 method zip
    · exact getTransitDays_le_5 zip
  have hdel : addBusinessDaysS (getShipDateS i)
        (if truthyStr method then getTransitDaysForShippingMethod method zip
          else getTransitDays zip)
      = addBusinessDaysD (getShipDateS i)
        (if truthyStr method then getTransitDaysForShippingMethod method zip
          else getTransitDays zip) := by
    set T := if truthyStr method then getTransitDaysForShippingMethod method zip
      else getTransitDays zip with hT
    rw [show addBusinessDaysS (getShipDateS i) T
      = addBusinessDaysGen isBusinessDayS (getShipDateS i) T from rfl]
    rw [show addBusinessDaysD (getShipDateS i) T
      = addBusinessDaysGen isBusinessDayD (getShipDateS i) T from rfl]
    rw [addBusinessDaysGen_eq_iter isBusinessDayS
        (fun e he => bizS_exists he) _ hshipv T,
      addBusinessDaysGen_eq_iter isBusinessDayD
        (fun e he => bizD_exists he) _ hshipv T]
    have hagship : ∀ k, k ≤ 14 * T →
        isBusinessDayS (nextDay^[k] (getShipDateS i))
          = isBusinessDayD (nextDay^[k] (getShipDateS i)) := by
      intro k hk
      rw [hshipeq, ← Function.iterate_add_apply]
      exact hag (k + s0) (by omega)
    exact iterNextBiz_agree isBusinessDayS isBusinessDayD
      (fun e he => bizS_exists he) (fun e he => bizD_exists he) T _ hshipv hagship
  unfold calculateDeliveryDateS calculateDeliveryDateD
  dsimp only
  rw [← hship, hdel]

set_option maxRecDepth 16000 in
/-- C1 witness: the amended theorem applied at a concrete 2024 instant. -/
theorem C1_witness :
    calculateDeliveryDateS (Instant.mk ⟨2024, 6, 3⟩ 9 14 9) "90210" none
      = calculateDeliveryDateD (some 9) (Instant.mk ⟨2024, 6, 3⟩ 9 14 9) "90210" none :=
  C1_surface_equivalence_amended (Instant.mk ⟨2024, 6, 3⟩ 9 14 9) (by decide)
    "90210" none (by decide) (by decide)
